import Mathlib

/-!
Verification development for the tuple-sliced learning switch controller
(`src/share/tupleslicer.py`).

The Python module manages a single OpenFlow switch sliced into several
virtual switches.  Each slice owns a set of *tuples*
`(port[, vlan[, inner-vlan]])`; the controller keeps, per switch, an index
from tuples to their owning slice, a tuple↔group-id allocator, the set of
known ports, and queues of invalidated slices and first-tag rules, and it
emits flow-mod / group-mod commands to converge the switch tables.

This file is a shallow embedding of that module:

* tuples are `List Int` (Python tuples of non-negative ints; elements may
  be negative in unvalidated input, which `create_slice` rejects);
* Python `set`s of tuples are `Finset (List Int)`; where the source
  iterates over a set (whose order CPython leaves unspecified) the
  embedding iterates in the sorted order given by the lexicographic
  `LinearOrder (List Int)`;
* Python `dict`s are association lists with `alookup` / `ainsert` /
  `aerase`, insertion always performed as cons-after-erase;
* `Slice` objects are records of their `target` / `established` /
  `sanitized` sets, held in a per-switch table keyed by a numeric id
  (Python identifies slices by object identity; fresh objects get fresh
  ids from `next_id`);
* code paths that raise in Python (`min` of an empty set, method calls on
  `None`) are embedded as `Option`-returning functions yielding `none`;
* every OpenFlow message the embedded functions send is returned in an
  explicit `List Msg`.
-/

/-- A slice tuple `(port[, vlan[, inner]])`, as the Python code represents
it: a tuple of integers, embedded as a list. -/
abbrev Tuple := List Int

/-- OpenFlow constant `OFPP_IN_PORT`. -/
def OFPP_IN_PORT : Int := 0xfffffff8

/-- OpenFlow constant `OFPP_CONTROLLER`. -/
def OFPP_CONTROLLER : Int := 0xfffffffd

/-- OpenFlow constant `OFPP_ANY`. -/
def OFPP_ANY : Int := 0xffffffff

/-- OpenFlow constant `OFPRR_IDLE_TIMEOUT` (flow-removed reason). -/
def OFPRR_IDLE_TIMEOUT : ℕ := 0

/-- `tuples_conflict(tup1, tup2)` from the source: two tuples conflict iff
they share a port and their encapsulation levels do not disagree at any
position both define.  Faithful transcription of the if-chain; `getD i 0`
plays the role of Python's `tup[i]`, which the source only evaluates after
the corresponding length test. -/
def tuples_conflict (tup1 tup2 : Tuple) : Bool :=
  if tup1.getD 0 0 ≠ tup2.getD 0 0 then false
  else if tup1.length = 1 then true
  else if tup2.length = 1 then true
  else if tup1.getD 1 0 ≠ tup2.getD 1 0 then false
  else if tup1.length = 2 then true
  else if tup2.length = 2 then true
  else decide (tup1.getD 2 0 = tup2.getD 2 0)

/-- Propositional characterisation of `tuples_conflict`, total in both
arguments. -/
theorem tuples_conflict_iff (t1 t2 : Tuple) :
    tuples_conflict t1 t2 = true ↔
      (t1.getD 0 0 = t2.getD 0 0 ∧
        (t1.length = 1 ∨ t2.length = 1 ∨
          (t1.getD 1 0 = t2.getD 1 0 ∧
            (t1.length = 2 ∨ t2.length = 2 ∨ t1.getD 2 0 = t2.getD 2 0)))) := by
  unfold tuples_conflict
  split_ifs with h0 h1 h2 h3 h4 h5 <;>
    simp_all <;> tauto

/-- `tuples_conflict` is symmetric. -/
theorem tuples_conflict_comm (t1 t2 : Tuple) :
    tuples_conflict t1 t2 = tuples_conflict t2 t1 := by
  by_cases h : tuples_conflict t1 t2 = true
  · have h' := (tuples_conflict_iff t1 t2).mp h
    have : tuples_conflict t2 t1 = true := by
      rw [tuples_conflict_iff]
      tauto
    rw [h, this]
  · have h2 : tuples_conflict t2 t1 ≠ true := by
      intro hc
      exact h ((tuples_conflict_iff t1 t2).mpr (by
        have := (tuples_conflict_iff t2 t1).mp hc
        tauto))
    simp only [Bool.not_eq_true] at h h2
    rw [h, h2]

/-- `tuples_conflict` is reflexive. -/
theorem tuples_conflict_refl (t : Tuple) : tuples_conflict t t = true := by
  rw [tuples_conflict_iff]
  tauto

/-- C1: for tuples of length 1–3, `tuples_conflict` returns true iff the
ports agree and (either tuple has length 1, or the position-2 elements
agree and (either tuple has length 2, or the position-3 elements agree));
in particular differing ports or differing position-2 VLANs (when both
sides define them) give no conflict. -/
theorem C1_tuples_conflict_spec (t1 t2 : Tuple)
    (h11 : 1 ≤ t1.length) (h13 : t1.length ≤ 3)
    (h21 : 1 ≤ t2.length) (h23 : t2.length ≤ 3) :
    (tuples_conflict t1 t2 = true ↔
      (t1.getD 0 0 = t2.getD 0 0 ∧
        (t1.length = 1 ∨ t2.length = 1 ∨
          (t1.getD 1 0 = t2.getD 1 0 ∧
            (t1.length = 2 ∨ t2.length = 2 ∨ t1.getD 2 0 = t2.getD 2 0))))) ∧
    (t1.getD 0 0 ≠ t2.getD 0 0 → tuples_conflict t1 t2 = false) ∧
    (t1.length ≠ 1 → t2.length ≠ 1 → t1.getD 1 0 ≠ t2.getD 1 0 →
      tuples_conflict t1 t2 = false) := by
  refine ⟨tuples_conflict_iff t1 t2, ?_, ?_⟩
  · intro hne
    by_contra hc
    simp only [Bool.not_eq_false] at hc
    exact hne ((tuples_conflict_iff t1 t2).mp hc).1
  · intro hl1 hl2 hne
    by_contra hc
    simp only [Bool.not_eq_false] at hc
    have h := (tuples_conflict_iff t1 t2).mp hc
    rcases h.2 with h' | h' | h'
    · exact hl1 h'
    · exact hl2 h'
    · exact hne h'.1

/-- Witness for C1 at concrete tuples `(6, 100)` and `(6, 100, 200)`. -/
theorem C1_tuples_conflict_spec_witness :
    (tuples_conflict [6, 100] [6, 100, 200] = true ↔
      (([6, 100] : Tuple).getD 0 0 = ([6, 100, 200] : Tuple).getD 0 0 ∧
        (([6, 100] : Tuple).length = 1 ∨ ([6, 100, 200] : Tuple).length = 1 ∨
          (([6, 100] : Tuple).getD 1 0 = ([6, 100, 200] : Tuple).getD 1 0 ∧
            (([6, 100] : Tuple).length = 2 ∨ ([6, 100, 200] : Tuple).length = 2 ∨
              ([6, 100] : Tuple).getD 2 0 = ([6, 100, 200] : Tuple).getD 2 0))))) ∧
    (([6, 100] : Tuple).getD 0 0 ≠ ([6, 100, 200] : Tuple).getD 0 0 →
      tuples_conflict [6, 100] [6, 100, 200] = false) ∧
    (([6, 100] : Tuple).length ≠ 1 → ([6, 100, 200] : Tuple).length ≠ 1 →
      ([6, 100] : Tuple).getD 1 0 ≠ ([6, 100, 200] : Tuple).getD 1 0 →
      tuples_conflict [6, 100] [6, 100, 200] = false) :=
  C1_tuples_conflict_spec [6, 100] [6, 100, 200]
    (by decide) (by decide) (by decide) (by decide)

/-! ### Association lists (the embedding of Python `dict`s) -/

/-- Lookup in an association list (first entry with the given key wins,
mirroring the cons-after-erase update discipline below). -/
def alookup {α β : Type} [DecidableEq α] (a : α) : List (α × β) → Option β
  | [] => none
  | (k, v) :: r => if k = a then some v else alookup a r

/-- Remove every entry with the given key. -/
def aerase {α β : Type} [DecidableEq α] (a : α) (l : List (α × β)) :
    List (α × β) :=
  l.filter (fun p => p.1 ≠ a)

/-- `d[a] = b`: erase the key, then cons the new binding. -/
def ainsert {α β : Type} [DecidableEq α] (a : α) (b : β) (l : List (α × β)) :
    List (α × β) :=
  (a, b) :: aerase a l

/-- No two entries share a key. -/
def NoDupKeys {α β : Type} (l : List (α × β)) : Prop :=
  l.Pairwise (fun p q => p.1 ≠ q.1)

theorem alookup_aerase_self {α β : Type} [DecidableEq α] (a : α)
    (l : List (α × β)) : alookup a (aerase a l) = none := by
  induction l with
  | nil => rfl
  | cons p r ih =>
    by_cases h : p.1 = a
    · simpa [aerase, h] using ih
    · simpa [aerase, alookup, h] using ih

theorem aerase_cons {α β : Type} [DecidableEq α] (a : α) (p : α × β)
    (r : List (α × β)) :
    aerase a (p :: r) = if p.1 = a then aerase a r else p :: aerase a r := by
  by_cases hp : p.1 = a <;> simp [aerase, hp]

theorem alookup_aerase_ne {α β : Type} [DecidableEq α] {a a' : α}
    (l : List (α × β)) (h : a ≠ a') :
    alookup a' (aerase a l) = alookup a' l := by
  induction l with
  | nil => rfl
  | cons p r ih =>
    rw [aerase_cons]
    by_cases hp : p.1 = a
    · rw [if_pos hp, ih]
      have hpa : p.1 ≠ a' := by rw [hp]; exact h
      show _ = if p.1 = a' then some p.2 else alookup a' r
      rw [if_neg hpa]
    · rw [if_neg hp]
      show (if p.1 = a' then some p.2 else alookup a' (aerase a r)) =
        if p.1 = a' then some p.2 else alookup a' r
      rw [ih]

theorem alookup_ainsert_self {α β : Type} [DecidableEq α] (a : α) (b : β)
    (l : List (α × β)) : alookup a (ainsert a b l) = some b := by
  simp [ainsert, alookup]

theorem alookup_ainsert_ne {α β : Type} [DecidableEq α] {a a' : α} (b : β)
    (l : List (α × β)) (h : a ≠ a') :
    alookup a' (ainsert a b l) = alookup a' l := by
  simp [ainsert, alookup, h, alookup_aerase_ne l h]

theorem noDupKeys_aerase {α β : Type} [DecidableEq α] (a : α)
    {l : List (α × β)} (h : NoDupKeys l) : NoDupKeys (aerase a l) :=
  List.Pairwise.filter _ h

theorem mem_aerase_ne {α β : Type} [DecidableEq α] {a : α} {q : α × β}
    {l : List (α × β)} (hq : q ∈ aerase a l) : q.1 ≠ a := by
  have := List.mem_filter.mp hq
  exact of_decide_eq_true this.2

theorem noDupKeys_ainsert {α β : Type} [DecidableEq α] (a : α) (b : β)
    {l : List (α × β)} (h : NoDupKeys l) : NoDupKeys (ainsert a b l) := by
  refine List.Pairwise.cons ?_ (noDupKeys_aerase a h)
  intro q hq
  exact fun hc => mem_aerase_ne hq hc.symm

theorem alookup_eq_some_of_mem {α β : Type} [DecidableEq α]
    {l : List (α × β)} (h : NoDupKeys l) {p : α × β} (hp : p ∈ l) :
    alookup p.1 l = some p.2 := by
  induction l with
  | nil => cases hp
  | cons q r ih =>
    rcases List.mem_cons.mp hp with rfl | hmem
    · simp [alookup]
    · have hq : q.1 ≠ p.1 := (List.pairwise_cons.mp h).1 p hmem
      have := ih (List.pairwise_cons.mp h).2 hmem
      simp [alookup, hq, this]

theorem mem_of_alookup_eq_some {α β : Type} [DecidableEq α]
    {l : List (α × β)} {a : α} {b : β} (h : alookup a l = some b) :
    (a, b) ∈ l := by
  induction l with
  | nil => cases h
  | cons q r ih =>
    by_cases hq : q.1 = a
    · simp only [alookup, hq, if_true] at h
      cases h
      have hqe : (a, q.2) = q := by
        calc (a, q.2) = (q.1, q.2) := by rw [hq]
          _ = q := rfl
      rw [hqe]
      exact List.mem_cons_self q r
    · simp only [alookup, hq, if_false] at h
      exact List.mem_cons_of_mem _ (ih h)

/-! ### OpenFlow messages (the commands the module emits) -/

/-- The match fields the module ever sets on a rule (`OFPMatch(...)`
keyword arguments); `none` means the field is absent from the match. -/
structure OFMatch where
  in_port : Option Int := none
  eth_src : Option String := none
  eth_dst : Option String := none
  metadata : Option Int := none
  vlan_vid : Option Int := none
deriving DecidableEq

/-- The empty `OFPMatch()`. -/
def emptyMatch : OFMatch := {}

/-- The actions/instructions the module ever attaches to a rule or a group
bucket, flattened into one list. -/
inductive OFAction where
  /-- `OFPActionOutput(port[, max_len])`. -/
  | output (port : Int) (maxLen : Option ℕ)
  /-- `OFPActionPushVlan(ethertype)`. -/
  | pushVlan (ethertype : ℕ)
  /-- `OFPActionSetField(vlan_vid=v)`. -/
  | setVlan (v : Int)
  /-- `OFPActionSetField(metadata=v)`. -/
  | setMetadata (v : Int)
  /-- `OFPActionPopVlan()`. -/
  | popVlan
  /-- `OFPActionGroup(gid)`. -/
  | group (gid : ℕ)
  /-- `OFPInstructionGotoTable(tbl)`. -/
  | gotoTable (tbl : ℕ)
deriving DecidableEq

/-- A command sent to the switch via `dp.send_msg`. -/
inductive Msg where
  /-- `OFPFlowMod(command=OFPFC_ADD, cookie, table_id, priority, match,
  instructions)`; a cookie of 0 is ryu's default for an absent argument. -/
  | flowAdd (cookie : ℕ) (table : ℕ) (priority : ℕ) (m : OFMatch)
      (acts : List OFAction)
  /-- `OFPFlowMod(command=OFPFC_DELETE, cookie, cookie_mask, table_id,
  match, out_port, out_group=ANY)`; cookie/cookie_mask of 0 are ryu's
  defaults for absent arguments. -/
  | flowDelete (cookie : ℕ) (cookie_mask : ℕ) (table : ℕ) (m : OFMatch)
      (out_port : Int)
  /-- `OFPGroupMod(command=OFPGC_ADD, group_id, buckets)`. -/
  | groupAdd (gid : ℕ) (buckets : List (List OFAction))
  /-- `OFPGroupMod(command=OFPGC_MODIFY, group_id, buckets)`. -/
  | groupModify (gid : ℕ) (buckets : List (List OFAction))
  /-- `OFPGroupMod(command=OFPGC_DELETE, group_id)`. -/
  | groupDelete (gid : ℕ)
deriving DecidableEq

/-- `SwitchStatus.tuple_match(tup, mac)`: the `(match, table, priority)`
triple identifying traffic arriving on a tuple. -/
def tuple_match (tup : Tuple) (mac : Option String) : OFMatch × ℕ × ℕ :=
  if tup.length = 1 then
    ({ in_port := some (tup.getD 0 0), eth_src := mac }, 0, 4)
  else if tup.length = 2 then
    ({ in_port := some (tup.getD 0 0), eth_src := mac,
       metadata := some (tup.getD 1 0) }, 1, 4)
  else
    ({ in_port := some (tup.getD 0 0), eth_src := mac,
       metadata := some (tup.getD 1 0),
       vlan_vid := some (Int.lor 0x1000 (tup.getD 2 0)) }, 1, 4)

/-- `SwitchStatus.tuple_action(tup, in_port)`: the action list that emits a
packet out on `tup`, substituting `OFPP_IN_PORT` when the tuple's port is
the given input port. -/
def tuple_action (tup : Tuple) (in_port : Int) : List OFAction :=
  let out_port := if tup.getD 0 0 = in_port then OFPP_IN_PORT else tup.getD 0 0
  if tup.length = 1 then [.output out_port none]
  else if tup.length = 2 then
    [.pushVlan 0x8100, .setVlan (Int.lor 0x1000 (tup.getD 1 0)),
     .output out_port none]
  else
    [.pushVlan 0x8100, .setVlan (Int.lor 0x1000 (tup.getD 2 0)),
     .pushVlan 0x88a8, .setVlan (Int.lor 0x1000 (tup.getD 1 0)),
     .output out_port none]

/-- The message `SwitchStatus.ensure_first_tag_rule(tup)` sends: nothing
for a 1-tuple, else the T0 rule that pops the first VLAN tag, saves it in
the metadata, and goes to T1. -/
def ensure_first_tag_msgs (tup : Tuple) : List Msg :=
  if tup.length < 2 then []
  else
    [.flowAdd 0 0 4
      { in_port := some (tup.getD 0 0),
        vlan_vid := some (Int.lor 0x1000 (tup.getD 1 0)) }
      [.popVlan, .setMetadata (tup.getD 1 0), .gotoTable 1]]

/-! ### Flow-removed handling (learning engine, C6) -/

/-- The match fields of a flow-removed event for a learned
ingress-suppression rule (those the handler reads). -/
structure FlowRemovedMatch where
  in_port : Int
  metadata : Int
  vlan_vid : Option Int
  eth_src : String
deriving DecidableEq

/-- The tuple `TupleSlicer.flow_removed_handler` reconstructs from a
flow-removed event, `none` when the reason is not `OFPRR_IDLE_TIMEOUT`.
Transcribed from the source: for `table_id ≠ 0` with a VLAN present the
code builds `(in_port, vlan_vid & 0xfff, metadata)` — the masked VLAN in
position 2 and the metadata in position 3. -/
def flow_removed_tuple (reason : ℕ) (table_id : ℕ) (m : FlowRemovedMatch) :
    Option Tuple :=
  if reason ≠ OFPRR_IDLE_TIMEOUT then none
  else if table_id = 0 then some [m.in_port]
  else
    match m.vlan_vid with
    | none => some [m.in_port, m.metadata]
    | some v => some [m.in_port, Int.land v 0xfff, m.metadata]

/-! ### Switch state (`Slice` and `SwitchStatus`) -/

/-- The per-`Slice` data: the tuples the operator asked for (`target`),
those whose rules are installed (`established`), and the subset of
`target` on known ports computed by `sanitize` (`sanitized`). -/
structure SliceData where
  target : Finset Tuple
  established : Finset Tuple
  sanitized : Finset Tuple
deriving DecidableEq

/-- The state of one `SwitchStatus` object.  Python `Slice` objects are
identified here by numeric ids drawn from `next_id`; `datapath` records
whether a datapath is attached (`dp is not None`). -/
structure SwitchState where
  datapath : Bool
  known_ports : Finset Int
  free_groups : Finset ℕ
  group_to_tuple : List (ℕ × Tuple)
  tuple_to_group : List (Tuple × ℕ)
  target_index : List (Tuple × ℕ)
  slices : List (ℕ × SliceData)
  next_id : ℕ
  invalid_slices : Finset ℕ
  invalid_first_tag_rules : Finset Tuple
deriving DecidableEq

/-- `SwitchStatus.__init__`. -/
def SwitchState.init : SwitchState :=
  { datapath := false, known_ports := ∅, free_groups := {0},
    group_to_tuple := [], tuple_to_group := [], target_index := [],
    slices := [], next_id := 0, invalid_slices := ∅,
    invalid_first_tag_rules := ∅ }

/-- Insertion into a sorted list under a boolean comparison (used to give
Python's unspecified set-iteration order a concrete, computable stand-in). -/
def binsert {α : Type} (le : α → α → Bool) (x : α) : List α → List α
  | [] => [x]
  | y :: r => if le x y then x :: y :: r else y :: binsert le x r

/-- Insertion sort under a boolean comparison. -/
def bsortList {α : Type} (le : α → α → Bool) (l : List α) : List α :=
  l.foldr (binsert le) []

theorem binsert_perm {α : Type} (le : α → α → Bool) (x : α) (l : List α) :
    (binsert le x l).Perm (x :: l) := by
  induction l with
  | nil => exact List.Perm.refl _
  | cons y r ih =>
    by_cases h : le x y = true
    · simp [binsert, h]
    · simp only [binsert, h, if_false]
      exact (List.Perm.cons y ih).trans (List.Perm.swap x y r)

theorem bsortList_perm {α : Type} (le : α → α → Bool) (l : List α) :
    (bsortList le l).Perm l := by
  induction l with
  | nil => exact List.Perm.refl _
  | cons x r ih =>
    exact (binsert_perm le x (bsortList le r)).trans (List.Perm.cons x ih)

theorem binsert_comm {α : Type} (le : α → α → Bool)
    (htot : ∀ a b, le a b = true ∨ le b a = true)
    (hanti : ∀ a b, le a b = true → le b a = true → a = b)
    (htra : ∀ a b c, le a b = true → le b c = true → le a c = true) :
    ∀ (l : List α) (x y : α),
      binsert le x (binsert le y l) = binsert le y (binsert le x l) := by
  intro l
  induction l with
  | nil =>
    intro x y
    by_cases h1 : le x y = true
    · by_cases h2 : le y x = true
      · cases hanti x y h1 h2
        rfl
      · simp [binsert, h1, h2]
    · have h2 : le y x = true := (htot x y).resolve_left h1
      simp [binsert, h1, h2]
  | cons z r ih =>
    intro x y
    rcases htot x y with hxy | hyx
    · by_cases hyx2 : le y x = true
      · cases hanti x y hxy hyx2
        rfl
      · -- le x y, ¬ le y x
        by_cases hyz : le y z = true
        · have hxz : le x z = true := htra x y z hxy hyz
          simp [binsert, hyz, hxz, hxy, hyx2]
        · by_cases hxz : le x z = true
          · simp [binsert, hyz, hxz, hxy, hyx2]
          · simp only [binsert, hyz, if_false, hxz]
            simp [binsert, hxz, hyz, ih]
    · by_cases hxy2 : le x y = true
      · cases hanti x y hxy2 hyx
        rfl
      · -- le y x, ¬ le x y: symmetric
        by_cases hxz : le x z = true
        · have hyz : le y z = true := htra y x z hyx hxz
          simp [binsert, hyz, hxz, hyx, hxy2]
        · by_cases hyz : le y z = true
          · simp [binsert, hyz, hxz, hyx, hxy2]
          · simp only [binsert, hyz, if_false, hxz]
            simp [binsert, hxz, hyz, ih]

theorem bsortList_perm_eq {α : Type} (le : α → α → Bool)
    (htot : ∀ a b, le a b = true ∨ le b a = true)
    (hanti : ∀ a b, le a b = true → le b a = true → a = b)
    (htra : ∀ a b c, le a b = true → le b c = true → le a c = true)
    {l l' : List α} (h : l.Perm l') : bsortList le l = bsortList le l' := by
  induction h with
  | nil => rfl
  | cons x _ ih => simp only [bsortList, List.foldr_cons] at ih ⊢; rw [ih]
  | swap x y r =>
    simp only [bsortList, List.foldr_cons]
    exact binsert_comm le htot hanti htra _ _ _
  | trans _ _ ih1 ih2 => exact ih1.trans ih2

/-- A Python set as a list: sort the finset's elements by a boolean
comparison (kernel-computable stand-in for CPython's unspecified
set-iteration order). -/
def bsortFinset {α : Type} (le : α → α → Bool)
    (htot : ∀ a b, le a b = true ∨ le b a = true)
    (hanti : ∀ a b, le a b = true → le b a = true → a = b)
    (htra : ∀ a b c, le a b = true → le b c = true → le a c = true)
    (s : Finset α) : List α :=
  Quotient.liftOn s.val (bsortList le)
    (fun _ _ h => bsortList_perm_eq le htot hanti htra h)

theorem bsortFinset_perm {α : Type} (le : α → α → Bool)
    (htot : ∀ a b, le a b = true ∨ le b a = true)
    (hanti : ∀ a b, le a b = true → le b a = true → a = b)
    (htra : ∀ a b c, le a b = true → le b c = true → le a c = true)
    (s : Finset α) :
    (bsortFinset le htot hanti htra s : Multiset α) = s.val := by
  rcases s with ⟨m, hm⟩
  induction m using Quotient.inductionOn with
  | h l =>
    show ((bsortList le l : List α) : Multiset α) = _
    exact Quotient.sound (bsortList_perm le l)

/-- Lexicographic boolean comparison on tuples. -/
def tupLEb : Tuple → Tuple → Bool
  | [], _ => true
  | _ :: _, [] => false
  | x :: xs, y :: ys =>
    if x < y then true else if y < x then false else tupLEb xs ys

theorem tupLEb_total (a b : Tuple) : tupLEb a b = true ∨ tupLEb b a = true := by
  induction a generalizing b with
  | nil => left; rfl
  | cons x xs ih =>
    cases b with
    | nil => right; rfl
    | cons y ys =>
      by_cases h1 : x < y
      · left; simp [tupLEb, h1]
      · by_cases h2 : y < x
        · right; simp [tupLEb, h2]
        · have hxy : x = y := le_antisymm (not_lt.mp h2) (not_lt.mp h1)
          subst hxy
          rcases ih ys with h | h
          · left; simp [tupLEb, h]
          · right; simp [tupLEb, h]

theorem tupLEb_antisymm (a b : Tuple) (h1 : tupLEb a b = true)
    (h2 : tupLEb b a = true) : a = b := by
  induction a generalizing b with
  | nil =>
    cases b with
    | nil => rfl
    | cons y ys => simp [tupLEb] at h2
  | cons x xs ih =>
    cases b with
    | nil => simp [tupLEb] at h1
    | cons y ys =>
      by_cases hxy : x < y
      · simp [tupLEb, hxy, asymm hxy, not_lt.mpr (le_of_lt hxy)] at h2
      · by_cases hyx : y < x
        · simp [tupLEb, hyx, hxy] at h1
        · have hx : x = y := le_antisymm (not_lt.mp hyx) (not_lt.mp hxy)
          subst hx
          simp only [tupLEb, lt_irrefl, if_false] at h1 h2
          rw [ih ys h1 h2]

theorem tupLEb_trans (a b c : Tuple) (h1 : tupLEb a b = true)
    (h2 : tupLEb b c = true) : tupLEb a c = true := by
  induction a generalizing b c with
  | nil => rfl
  | cons x xs ih =>
    cases b with
    | nil => simp [tupLEb] at h1
    | cons y ys =>
      cases c with
      | nil => simp [tupLEb] at h2
      | cons z zs =>
        simp only [tupLEb] at h1 h2 ⊢
        by_cases hxy : x < y
        · by_cases hyz : y < z
          · simp [lt_trans hxy hyz]
          · by_cases hzy : z < y
            · simp [tupLEb, hzy, hyz] at h2
            · have : y = z := le_antisymm (not_lt.mp hzy) (not_lt.mp hyz)
              subst this
              simp [hxy]
        · by_cases hyx : y < x
          · simp [hxy, hyx] at h1
          · have hx : x = y := le_antisymm (not_lt.mp hyx) (not_lt.mp hxy)
            subst hx
            simp only [lt_irrefl, if_false] at h1
            by_cases hyz : x < z
            · simp [hyz]
            · by_cases hzy : z < x
              · simp [hzy, hyz] at h2
              · have : x = z := le_antisymm (not_lt.mp hzy) (not_lt.mp hyz)
                subst this
                simp only [lt_irrefl, if_false] at h2 ⊢
                exact ih ys zs h1 h2

/-- A Python set of tuples as a list, in `tupLEb` order (the embedding of
CPython's unspecified set-iteration order). -/
def tupsort (s : Finset Tuple) : List Tuple :=
  bsortFinset tupLEb tupLEb_total tupLEb_antisymm tupLEb_trans s

theorem tupsort_coe (s : Finset Tuple) : ((tupsort s : List Tuple) : Multiset Tuple) = s.val :=
  bsortFinset_perm tupLEb tupLEb_total tupLEb_antisymm tupLEb_trans s

theorem mem_tupsort {s : Finset Tuple} {x : Tuple} :
    x ∈ tupsort s ↔ x ∈ s := by
  rw [← Multiset.mem_coe, tupsort_coe]
  exact Iff.symm Finset.mem_def

theorem tupsort_nodup (s : Finset Tuple) : (tupsort s).Nodup := by
  have h : ((tupsort s : List Tuple) : Multiset Tuple).Nodup := by
    rw [tupsort_coe]
    exact s.nodup
  exact Multiset.coe_nodup.mp h

/-- A Python set of naturals as a list, in ascending order. -/
def natsort (s : Finset ℕ) : List ℕ :=
  bsortFinset (fun a b => decide (a ≤ b))
    (fun a b => by rcases Nat.le_total a b with h | h
                   · left; exact decide_eq_true h
                   · right; exact decide_eq_true h)
    (fun a b h1 h2 => Nat.le_antisymm (of_decide_eq_true h1) (of_decide_eq_true h2))
    (fun a b c h1 h2 => decide_eq_true (Nat.le_trans (of_decide_eq_true h1) (of_decide_eq_true h2)))
    s

/-- The `target` of the slice with a given id (∅ when the id is dead). -/
def targetOfD (st : SwitchState) (sid : ℕ) : Finset Tuple :=
  match alookup sid st.slices with
  | none => ∅
  | some d => d.target

/-- The full record of the slice with a given id. -/
def sliceOfD (st : SwitchState) (sid : ℕ) : SliceData :=
  match alookup sid st.slices with
  | none => ⟨∅, ∅, ∅⟩
  | some d => d

/-- `Slice.abandon(tup)` on the slice with id `sid`: drop the tuple from
the slice's target, remove its index entry, and mark the slice invalid. -/
def SwitchState.abandon (st : SwitchState) (sid : ℕ) (tup : Tuple) :
    SwitchState :=
  match alookup sid st.slices with
  | none => st
  | some d =>
    if tup ∉ d.target then st
    else
      { st with
        slices := ainsert sid { d with target := d.target.erase tup } st.slices,
        target_index := aerase tup st.target_index,
        invalid_slices := insert sid st.invalid_slices }

/-- The list of (tuple, owner) pairs `adopt` forces out: every indexed
tuple conflicting with `tup`, except `tup` itself when already owned by
the adopting slice. -/
def adoptAbd (st : SwitchState) (sid : ℕ) (tup : Tuple) : List (Tuple × ℕ) :=
  st.target_index.filter
    (fun p => tuples_conflict tup p.1 && !(decide (p.1 = tup) && decide (p.2 = sid)))

/-- `Slice.adopt(tup)` on the slice with id `sid`: collect every indexed
tuple conflicting with `tup` (other than `tup` itself in this very slice),
make its owner abandon it, then take `tup`, index it, and mark this slice
invalid. -/
def SwitchState.adopt (st : SwitchState) (sid : ℕ) (tup : Tuple) :
    SwitchState :=
  match alookup sid st.slices with
  | none => st
  | some d =>
    if tup ∈ d.target then st
    else
      let st1 := (adoptAbd st sid tup).foldl (fun s p => s.abandon p.2 p.1) st
      match alookup sid st1.slices with
      | none => st1
      | some d1 =>
        { st1 with
          slices := ainsert sid { d1 with target := insert tup d1.target } st1.slices,
          target_index := ainsert tup sid st1.target_index,
          invalid_slices := insert sid st1.invalid_slices }

/-- The per-tuple validity checks of `SwitchStatus.create_slice`: 1–3
elements, none negative. -/
def tuple_ok (t : Tuple) : Bool :=
  decide (1 ≤ t.length) && decide (t.length ≤ 3) &&
  decide (0 ≤ t.getD 0 0) &&
  (decide (t.length ≤ 1) || decide (0 ≤ t.getD 1 0)) &&
  (decide (t.length ≤ 2) || decide (0 ≤ t.getD 2 0))

/-- One step of `create_slice`'s search for the slice with maximum overlap
(ties resolved to the first candidate, via strict `>`). -/
def bestStep (st : SwitchState) (tups : Finset Tuple) (acc : Option ℕ × ℕ)
    (tup : Tuple) : Option ℕ × ℕ :=
  match alookup tup st.target_index with
  | none => acc
  | some sid =>
    let ov := (targetOfD st sid ∩ tups).card
    if ov > acc.2 then (some sid, ov) else acc

/-- `create_slice`'s best-overlap search over the requested tuples. -/
def bestOf (st : SwitchState) (tups : Finset Tuple) : Option ℕ × ℕ :=
  (tupsort tups).foldl (bestStep st tups) ((none : Option ℕ), 0)

/-- Adopt each tuple of a list, in order, into the slice with id `sid`. -/
def adoptAll (sid : ℕ) (L : List Tuple) (st : SwitchState) : SwitchState :=
  L.foldl (fun s t => s.adopt sid t) st

/-- `Slice(self)`: register a brand-new empty slice under a fresh id. -/
def addFreshSlice (st : SwitchState) : SwitchState :=
  { st with slices := ainsert st.next_id ⟨∅, ∅, ∅⟩ st.slices,
            next_id := st.next_id + 1 }

/-- `SwitchStatus.create_slice(tups)`: validate the request, find the
existing slice with maximum overlap, adopt the new tuples into it and
split its remainder into a fresh slice; with no overlap, adopt everything
into a fresh slice.  Returns the id of the modified/created slice, or
`none` for a rejected request. -/
def SwitchState.create_slice (st : SwitchState) (tups : Finset Tuple) :
    Option ℕ × SwitchState :=
  if tups.card = 0 then (none, st)
  else if ¬ (∀ t ∈ tups, tuple_ok t = true) then (none, st)
  else if ∃ t ∈ tups, ∃ u ∈ tups, t ≠ u ∧ tuples_conflict t u = true then
    (none, st)
  else
    match (bestOf st tups).1 with
    | some bsid =>
      let st1 := adoptAll bsid (tupsort (tups \ targetOfD st bsid)) st
      (some bsid,
        adoptAll st1.next_id (tupsort (targetOfD st1 bsid \ tups))
          (addFreshSlice st1))
    | none =>
      (some st.next_id, adoptAll st.next_id (tupsort tups) (addFreshSlice st))

/-- `SwitchStatus.get_config()`: the list of tuple sets of the distinct
slices reachable through `target_index`. -/
def SwitchState.get_config (st : SwitchState) : List (Finset Tuple) :=
  ((st.target_index.map Prod.snd).dedup).map (fun sid => targetOfD st sid)

/-- `SwitchStatus.get_slice(tup)`. -/
def SwitchState.get_slice (st : SwitchState) (tup : Tuple) : Option ℕ :=
  alookup tup st.target_index

/-- `SwitchStatus.get_group_for_tuple(tup)`. -/
def SwitchState.get_group_for_tuple (st : SwitchState) (tup : Tuple) :
    Option ℕ :=
  alookup tup st.tuple_to_group

/-- `SwitchStatus.claim_group_for_tuple(tup)`: reuse the existing mapping,
else take `min(free_groups)` (Python raises on an empty set — embedded as
`none`), and re-seed the free pool with `group+1` if it just emptied. -/
def SwitchState.claim_group_for_tuple (st : SwitchState) (tup : Tuple) :
    Option (ℕ × Bool × SwitchState) :=
  match alookup tup st.tuple_to_group with
  | some g => some (g, false, st)
  | none =>
    if h : st.free_groups.Nonempty then
      let g := st.free_groups.min' h
      let fg := st.free_groups.erase g
      let fg2 := if fg = ∅ then ({g + 1} : Finset ℕ) else fg
      some (g, true,
        { st with free_groups := fg2,
                  tuple_to_group := ainsert tup g st.tuple_to_group,
                  group_to_tuple := ainsert g tup st.group_to_tuple })
    else none

/-- `SwitchStatus.release_tuple(tup)`: free the tuple's group, if any, and
return it. -/
def SwitchState.release_tuple (st : SwitchState) (tup : Tuple) :
    Option ℕ × SwitchState :=
  match alookup tup st.tuple_to_group with
  | none => (none, st)
  | some g =>
    (some g,
      { st with tuple_to_group := aerase tup st.tuple_to_group,
                group_to_tuple := aerase g st.group_to_tuple,
                free_groups := insert g st.free_groups })

/-- `SwitchStatus.port_added(port)`. -/
def SwitchState.port_added (st : SwitchState) (port : Int) : SwitchState :=
  if port > 0x7fffffff then st
  else { st with known_ports := insert port st.known_ports }

/-- `SwitchStatus.port_removed(port)`: forget the port and mark every
slice owning a tuple on it invalid. -/
def SwitchState.port_removed (st : SwitchState) (port : Int) : SwitchState :=
  let st1 := { st with known_ports := st.known_ports.erase port }
  st.target_index.foldl
    (fun s p =>
      if p.1.getD 0 0 = port then
        { s with invalid_slices := insert p.2 s.invalid_slices }
      else s)
    st1

/-- `SwitchStatus.discard_tuple(tup)`. -/
def SwitchState.discard_tuple (st : SwitchState) (tup : Tuple) : SwitchState :=
  match alookup tup st.target_index with
  | none => st
  | some sid => st.abandon sid tup

/-- `Slice.sanitize()` on the slice with id `sid`: recompute `sanitized`
as the target tuples whose port is known. -/
def SwitchState.sanitize (st : SwitchState) (sid : ℕ) : SwitchState :=
  match alookup sid st.slices with
  | none => st
  | some d =>
    let d2 := { d with sanitized := d.target.filter (fun t => t.getD 0 0 ∈ st.known_ports) }
    { st with slices := ainsert sid d2 st.slices }

/-- `Slice.match()` on the slice with id `sid` (`match` is reserved in
Lean): `established := sanitized`. -/
def SwitchState.slice_match (st : SwitchState) (sid : ℕ) : SwitchState :=
  match alookup sid st.slices with
  | none => st
  | some d =>
    { st with slices := ainsert sid { d with established := d.sanitized } st.slices }

/-- `SwitchStatus.invalidate_first_tag_rule(tup)`. -/
def SwitchState.invalidate_first_tag_rule (st : SwitchState) (tup : Tuple) :
    SwitchState :=
  if tup.length < 2 then st
  else { st with invalid_first_tag_rules := insert (tup.take 2) st.invalid_first_tag_rules }

/-! ### Revalidation pipeline -/

/-- `SwitchStatus.delete_dynamic_rules(tup)`: delete the tuple's T0/T1
source rule, and, if it owned a group, the group (with its flood rule) and
the T2 rules keyed on it. -/
def SwitchState.delete_dynamic_rules (st : SwitchState) (tup : Tuple) :
    SwitchState × List Msg :=
  let st1 := st.invalidate_first_tag_rule tup
  let mtp := tuple_match tup none
  let msg1 := Msg.flowDelete 0 0 mtp.2.1 mtp.1 OFPP_ANY
  let rel := st1.release_tuple tup
  match rel.1 with
  | none => (rel.2, [msg1])
  | some g =>
    (rel.2,
      [msg1, .groupDelete g,
       .flowDelete g 0xffffffffffffffff 2 emptyMatch OFPP_ANY,
       .flowDelete 0 0 2 { metadata := some (g : Int) } OFPP_ANY])

/-- The `oldtups` computation of `Slice.delete_static_rules`: the tuples
whose rules are now invalid.  All of `established` when exactly two tuples
were established or at most two remain; otherwise the established tuples
that are no longer sanitized. -/
def oldtups_of (established sanitized : Finset Tuple) : Finset Tuple :=
  if established.card = 2 then established
  else if sanitized.card ≤ 2 then established
  else established \ sanitized

/-- The per-`oldtup` delete loop of `Slice.delete_static_rules`: invalidate
the tuple's first-tag rule and delete its source-identifying rule, cookied
with the tuple's group when it has one. -/
def dsrDelLoop : SwitchState × List Msg → List Tuple → SwitchState × List Msg
  | p, [] => p
  | p, tup :: r =>
    let s1 := p.1.invalidate_first_tag_rule tup
    let mtp := tuple_match tup none
    let msg := match alookup tup s1.tuple_to_group with
      | none => Msg.flowDelete 0 0 mtp.2.1 mtp.1 OFPP_ANY
      | some g =>
        Msg.flowDelete g 0xffffffffffffffff mtp.2.1 mtp.1 OFPP_CONTROLLER
    dsrDelLoop (s1, p.2 ++ [msg]) r

/-- The group-release loop of `Slice.delete_static_rules`, run when the
slice drops out of multi-tuple mode. -/
def dsrRelLoop : SwitchState × List Msg → List Tuple → SwitchState × List Msg
  | p, [] => p
  | p, tup :: r =>
    let rel := p.1.release_tuple tup
    match rel.1 with
    | none => dsrRelLoop (rel.2, p.2) r
    | some g =>
      dsrRelLoop
        (rel.2, p.2 ++
          [.groupDelete g,
           .flowDelete 0xffffffffffffffff 0 2 { metadata := some (g : Int) } OFPP_ANY])
        r

/-- `Slice.delete_static_rules()` on the slice with id `sid`: delete the
source-identifying rules of every tuple in `oldtups`, and when the slice
leaves multi-tuple mode release every old tuple's group, deleting the
group and its metadata-keyed T2 rules. -/
def SwitchState.delete_static_rules (st : SwitchState) (sid : ℕ) :
    SwitchState × List Msg :=
  match alookup sid st.slices with
  | none => (st, [])
  | some d =>
    if d.sanitized = d.established then (st, [])
    else
      let oldtups := oldtups_of d.established d.sanitized
      let step1 := dsrDelLoop (st, []) (tupsort oldtups)
      if d.sanitized.card ≤ 2 ∧ d.established.card > 2 then
        dsrRelLoop step1 (tupsort oldtups)
      else step1

/-- The first loop of the multi-tuple branch of `Slice.add_static_rules`:
claim a group per sanitized tuple, emit the group mod and (for fresh
groups) the T2 flood rule with the broadcast cookie.  The returned `ℕ` is
the value the Python variable `group` holds after the loop — the group of
the *last* tuple iterated. -/
def groupLoop (san : Finset Tuple) :
    SwitchState → List Tuple → ℕ → List Msg →
    Option (SwitchState × List Msg × ℕ)
  | st, [], g, msgs => some (st, msgs, g)
  | st, stup :: r, _, msgs =>
    match st.claim_group_for_tuple stup with
    | none => none
    | some (g, added, st1) =>
      let buckets := (tupsort (san.erase stup)).map
        (fun dtup => tuple_action dtup (stup.getD 0 0))
      let gm : Msg := if added then .groupAdd g buckets else .groupModify g buckets
      let extra : List Msg :=
        if added then
          [.flowAdd 0xffffffffffffffff 2 1 { metadata := some (g : Int) }
            [.group g]]
        else []
      groupLoop san st1 r g (msgs ++ [gm] ++ extra)

/-- `Slice.add_static_rules()` on the slice with id `sid`.  Note the
second loop of the multi-tuple branch: the Python code passes
`cookie=group` where `group` is the leftover loop variable of the first
loop, i.e. the group of the last sanitized tuple — not the group of the
tuple the rule is for. -/
def SwitchState.add_static_rules (st : SwitchState) (sid : ℕ) :
    Option (SwitchState × List Msg) :=
  match alookup sid st.slices with
  | none => some (st, [])
  | some d =>
    if d.sanitized = d.established then some (st, [])
    else if d.sanitized.card < 2 then some (st, [])
    else if d.sanitized.card = 2 then
      let tl := tupsort d.sanitized
      let a := tl.getD 0 []
      let b := tl.getD 1 []
      let mkE := fun (x y : Tuple) =>
        let mtp := tuple_match x none
        ensure_first_tag_msgs x ++
          [Msg.flowAdd 0 mtp.2.1 mtp.2.2 mtp.1 (tuple_action y (x.getD 0 0))]
      some (st, mkE a b ++ mkE b a)
    else
      let newports :=
        if d.established.card ≤ 2 then d.sanitized
        else d.sanitized \ d.established
      match groupLoop d.sanitized st (tupsort d.sanitized) 0 [] with
      | none => none
      | some (st1, msgs1, lastg) =>
        let msgs2 := (tupsort newports).foldl
          (fun acc stup =>
            let mtp := tuple_match stup none
            acc ++
              [Msg.flowAdd lastg mtp.2.1 mtp.2.2 mtp.1
                [.output OFPP_CONTROLLER (some 65535)]] ++
              ensure_first_tag_msgs stup)
          []
        some (st1, msgs1 ++ msgs2)

/-- The delete pass of `revalidate`: `delete_static_rules` on each invalid
slice in turn. -/
def delPass : SwitchState → List ℕ → SwitchState × List Msg
  | st, [] => (st, [])
  | st, sid :: r =>
    let p := st.delete_static_rules sid
    let q := delPass p.1 r
    (q.1, p.2 ++ q.2)

/-- The add pass of `revalidate`: `add_static_rules` on each invalid slice
in turn (`none` when group allocation would raise). -/
def addPass : SwitchState → List ℕ → Option (SwitchState × List Msg)
  | st, [] => some (st, [])
  | st, sid :: r =>
    match st.add_static_rules sid with
    | none => none
    | some (st1, m1) =>
      match addPass st1 r with
      | none => none
      | some (st2, m2) => some (st2, m1 ++ m2)

/-- `SwitchStatus.revalidate_first_tag_rules()`: drop from the candidate
set every `(port, vlan)` still required by a live slice tuple, delete the
T0 rules of the remainder, and clear the candidate set. -/
def SwitchState.revalidate_first_tag_rules (st : SwitchState) :
    SwitchState × List Msg :=
  let owners := (st.target_index.map Prod.snd).dedup
  let required := owners.foldl
    (fun acc sid => acc ∪ (sliceOfD st sid).target.image (fun t => t.take 2))
    (∅ : Finset Tuple)
  let remaining := st.invalid_first_tag_rules \ required
  let msgs := (tupsort remaining).map (fun tup =>
    Msg.flowDelete 0 0 0
      { in_port := some (tup.getD 0 0),
        vlan_vid := some (Int.lor 0x1000 (tup.getD 1 0)) }
      OFPP_ANY)
  ({ st with invalid_first_tag_rules := ∅ }, msgs)

/-- The tuples-to-remove set of `revalidate`: tuples still established in
an invalid slice but no longer in its target. -/
def revTTR (st : SwitchState) : Finset Tuple :=
  (natsort st.invalid_slices).foldl
    (fun acc sid => acc ∪ ((sliceOfD st sid).established \ (sliceOfD st sid).target))
    (∅ : Finset Tuple)

/-- The dynamic-rule delete loop of `revalidate`: `delete_dynamic_rules`
on each removed tuple in turn. -/
def ddrPass : SwitchState → List Tuple → SwitchState × List Msg
  | st, [] => (st, [])
  | st, tup :: r =>
    let q := st.delete_dynamic_rules tup
    let q2 := ddrPass q.1 r
    (q2.1, q.2 ++ q2.2)

/-- The sanitize loop of `revalidate`: `Slice.sanitize()` on each invalid
slice in turn. -/
def sanPass : SwitchState → List ℕ → SwitchState
  | st, [] => st
  | st, sid :: r => sanPass (st.sanitize sid) r

/-- The mark-matched loop of `revalidate`: `Slice.match()` on each invalid
slice in turn. -/
def matchPass : SwitchState → List ℕ → SwitchState
  | st, [] => st
  | st, sid :: r => matchPass (st.slice_match sid) r

/-- `SwitchStatus.revalidate()`: a no-op without a datapath; otherwise
delete rules for tuples removed from their slices, sanitize every invalid
slice, run the static delete and add passes, set `established :=
sanitized` everywhere, clear `invalid_slices`, and collect the first-tag
garbage. -/
def SwitchState.revalidate (st : SwitchState) :
    Option (SwitchState × List Msg) :=
  if st.datapath = false then some (st, [])
  else
    let inv := natsort st.invalid_slices
    let p1 := ddrPass st (tupsort (revTTR st))
    let st2 := sanPass p1.1 inv
    let p3 := delPass st2 inv
    match addPass p3.1 inv with
    | none => none
    | some (st4, m4) =>
      let st5 := matchPass st4 inv
      let st6 := { st5 with invalid_slices := ∅ }
      let p7 := st6.revalidate_first_tag_rules
      some (p7.1, p1.2 ++ p3.2 ++ m4 ++ p7.2)

/-- `TupleSlicer._not_heard_from(dp, tup, mac)`: the T2 delete retracting
a timed-out MAC, keyed on the tuple's group with an all-ones cookie mask.
`none` embeds the Python crashes when the tuple has no slice
(`slize.get_tuples()` on `None`) or no group (`cookie=None`). -/
def not_heard_from (st : SwitchState) (tup : Tuple) (mac : String) :
    Option Msg :=
  match alookup tup st.target_index with
  | none => none
  | some _ =>
    match alookup tup st.tuple_to_group with
    | none => none
    | some g =>
      some (.flowDelete g 0xffffffffffffffff 2 { eth_dst := some mac } OFPP_ANY)

/-! ### C3: create_slice rejection -/

/-- Propositional form of the per-tuple validity check. -/
theorem tuple_ok_iff (t : Tuple) :
    tuple_ok t = true ↔
      (1 ≤ t.length ∧ t.length ≤ 3 ∧ 0 ≤ t.getD 0 0 ∧
        (t.length ≤ 1 ∨ 0 ≤ t.getD 1 0) ∧ (t.length ≤ 2 ∨ 0 ≤ t.getD 2 0)) := by
  simp [tuple_ok, and_assoc]

/-- A tuple with a negative element at a defined position fails
validation. -/
theorem tuple_ok_false_of_neg (t : Tuple) (i : ℕ) (hi : i < t.length)
    (hneg : t.getD i 0 < 0) : tuple_ok t = false := by
  by_contra hc
  simp only [Bool.not_eq_false] at hc
  obtain ⟨h1, h3, h0, ha, hb⟩ := (tuple_ok_iff t).mp hc
  have hi3 : i < 3 := by omega
  interval_cases i
  · omega
  · rcases ha with h | h <;> omega
  · rcases hb with h | h <;> omega

/-- C3: `create_slice` returns the rejection value `none` — and leaves the
entire switch state unchanged (hence all of `target_index`, every slice's
target set, the group maps, `free_groups`, `invalid_slices`, and
`invalid_first_tag_rules`) — whenever the request is empty, contains a
tuple of length < 1 or > 3, contains a tuple with a negative element, or
contains two distinct conflicting tuples.  (`create_slice` contains no
`send_msg` call, so no switch command is emitted on any path through it.) -/
theorem C3_create_slice_rejects (st : SwitchState) (tups : Finset Tuple)
    (h : tups = ∅ ∨
      (∃ t ∈ tups, t.length < 1 ∨ t.length > 3) ∨
      (∃ t ∈ tups, ∃ i, i < t.length ∧ t.getD i 0 < 0) ∨
      (∃ t ∈ tups, ∃ u ∈ tups, t ≠ u ∧ tuples_conflict t u = true)) :
    st.create_slice tups = (none, st) := by
  by_cases h0 : tups.card = 0
  · simp [SwitchState.create_slice, h0]
  · have hbad : (¬ ∀ t ∈ tups, tuple_ok t = true) ∨
        (∃ t ∈ tups, ∃ u ∈ tups, t ≠ u ∧ tuples_conflict t u = true) := by
      rcases h with h | h | h | h
      · exact absurd (by rw [h]; rfl) h0
      · obtain ⟨t, ht, hlen⟩ := h
        refine Or.inl (fun hall => ?_)
        have := (tuple_ok_iff t).mp (hall t ht)
        omega
      · obtain ⟨t, ht, i, hi, hneg⟩ := h
        refine Or.inl (fun hall => ?_)
        have := tuple_ok_false_of_neg t i hi hneg
        rw [hall t ht] at this
        cases this
      · exact Or.inr h
    rcases hbad with hbad | hbad
    · simp [SwitchState.create_slice, h0, hbad]
    · by_cases h1 : ∀ t ∈ tups, tuple_ok t = true
      · simp [SwitchState.create_slice, h0, h1, hbad]
      · simp [SwitchState.create_slice, h0, h1]

/-- Witness for C3: rejecting the request `{(5, -1)}` (negative element)
on a fresh switch changes nothing. -/
theorem C3_create_slice_rejects_witness :
    SwitchState.init.create_slice {[5, -1]} = (none, SwitchState.init) :=
  C3_create_slice_rejects SwitchState.init {[5, -1]}
    (Or.inr (Or.inr (Or.inl ⟨[5, -1], by decide, 1, by decide, by decide⟩)))

/-! ### C4: the `oldtups` computation of the static delete pass -/

/-- C4 (amended): `oldtups` is all of `established` when exactly two
tuples were established or at most two are sanitized, and `established −
sanitized` otherwise — in particular a slice whose `established` has size
1 (not 2!) growing to a sanitized size ≥ 3 only deletes
`established − sanitized`. -/
theorem C4_oldtups_cases (e s : Finset Tuple) :
    (e.card = 2 ∨ s.card ≤ 2 → oldtups_of e s = e) ∧
    (e.card ≠ 2 → 2 < s.card → oldtups_of e s = e \ s) := by
  unfold oldtups_of
  constructor
  · rintro (h | h)
    · rw [if_pos h]
    · by_cases h2 : e.card = 2
      · rw [if_pos h2]
      · rw [if_neg h2, if_pos h]
  · intro h1 h2
    rw [if_neg h1, if_neg (by omega)]

/-- C4 counterexample: with `established = {(1)}` (size 1 ≤ 2) and
`sanitized = {(1),(2),(3)}` (size 3), the code's `oldtups` is
`established − sanitized = ∅`, not all of `established` as the claim
requires for `|established| ≤ 2`. -/
theorem C4_oldtups_counterexample :
    oldtups_of {[1]} {[1], [2], [3]} = (∅ : Finset Tuple) ∧
    ({[1]} : Finset Tuple).card ≤ 2 ∧
    2 < ({[1], [2], [3]} : Finset Tuple).card ∧
    oldtups_of {[1]} {[1], [2], [3]} ≠ ({[1]} : Finset Tuple) := by
  refine ⟨by decide, by decide, by decide, by decide⟩

/-- Witness for C4 at `established = {(1),(2)}`, `sanitized = {(9)}`. -/
theorem C4_oldtups_cases_witness :
    (({[1], [2]} : Finset Tuple).card = 2 ∨
      ({[9]} : Finset Tuple).card ≤ 2) ∧
    oldtups_of {[1], [2]} {[9]} = ({[1], [2]} : Finset Tuple) :=
  ⟨Or.inl (by decide), (C4_oldtups_cases {[1], [2]} {[9]}).1 (Or.inl (by decide))⟩

/-! ### C6: flow-removed tuple reconstruction -/

/-- A concrete switch state in which slice 0 owns the 3-tuple
`(1, 100, 200)` with group 5: the state left by learning on that tuple. -/
def c6_state : SwitchState :=
  { SwitchState.init with
      datapath := true,
      known_ports := {1},
      target_index := [([1, 100, 200], 0)],
      slices := [(0, ⟨{[1, 100, 200]}, {[1, 100, 200]}, {[1, 100, 200]}⟩)],
      tuple_to_group := [([1, 100, 200], 5)],
      group_to_tuple := [(5, [1, 100, 200])] }

/-- C6: the ingress-suppression rule installed for tuple `(1, 100, 200)`
carries `metadata = 100` and `vlan_vid = 0x1000 | 200` (per
`tuple_match`), but on its idle timeout `flow_removed_handler` rebuilds
the tuple as `(in_port, vlan_vid & 0xfff, metadata) = (1, 200, 100)` —
VLAN and metadata swapped relative to the claimed `(in_port, metadata,
vlan_vid & 0xfff) = (1, 100, 200)`.  The swapped tuple then misses both
`target_index` and `tuple_to_group`, so `_not_heard_from` cannot issue the
cookie-filtered T2 delete it would issue for the true tuple. -/
theorem C6_flow_removed_swapped :
    (tuple_match [1, 100, 200] (some "aa:bb:cc:dd:ee:01")).1.metadata = some 100 ∧
    (tuple_match [1, 100, 200] (some "aa:bb:cc:dd:ee:01")).1.vlan_vid =
      some (Int.lor 0x1000 200) ∧
    flow_removed_tuple OFPRR_IDLE_TIMEOUT 1
        ⟨1, 100, some (Int.lor 0x1000 200), "aa:bb:cc:dd:ee:01"⟩ =
      some [1, 200, 100] ∧
    some [1, 200, 100] ≠ some ([1, 100, 200] : Tuple) ∧
    not_heard_from c6_state [1, 200, 100] "aa:bb:cc:dd:ee:01" = none ∧
    not_heard_from c6_state [1, 100, 200] "aa:bb:cc:dd:ee:01" =
      some (.flowDelete 5 0xffffffffffffffff 2
        { eth_dst := some "aa:bb:cc:dd:ee:01" } OFPP_ANY) := by
  refine ⟨by decide, by decide, by decide, by decide, by decide, by decide⟩

/-! ### C5: the unknown-source classifier's cookie -/

/-- Recognise the unknown-source classifier flow-mods of
`add_static_rules` (the only rules whose action list is a single
controller output with `max_len = 65535`). -/
def Msg.isUnknownSrcClassifier : Msg → Bool
  | .flowAdd _ _ _ _ acts =>
    decide (acts = [OFAction.output OFPP_CONTROLLER (some 65535)])
  | _ => false

/-- The cookie of a flow-mod message. -/
def Msg.cookieOf : Msg → ℕ
  | .flowAdd c _ _ _ _ => c
  | .flowDelete c _ _ _ _ => c
  | _ => 0

/-- The `in_port` match field of a flow-mod message. -/
def Msg.inPortOf : Msg → Option Int
  | .flowAdd _ _ _ m _ => m.in_port
  | .flowDelete _ _ _ m _ => m.in_port
  | _ => none

/-- A slice (id 0) that just became multi-tuple: target and sanitized
`{(1),(2),(3)}`, nothing established, fresh group allocator. -/
def c5_state : SwitchState :=
  { SwitchState.init with
      datapath := true,
      known_ports := {1, 2, 3},
      target_index := [([1], 0), ([2], 0), ([3], 0)],
      slices := [(0, ⟨{[1], [2], [3]}, ∅, {[1], [2], [3]}⟩)] }

/-- C5: running `add_static_rules` on the slice `{(1),(2),(3)}` allocates
groups `(1)↦0`, `(2)↦1`, `(3)↦2`, but every unknown-source classifier
rule it emits (for in_ports 1, 2 and 3) carries cookie 2 — the Python
`group` variable left over from the last iteration of the group loop —
instead of the group allocated to the rule's own tuple; in particular the
rule for tuple `(1)` has cookie 2 while `claim_group_for_tuple((1,))`
returned 0. -/
theorem C5_classifier_cookie_stale :
    ((c5_state.add_static_rules 0).map
        (fun p => (p.2.filter Msg.isUnknownSrcClassifier).map
          (fun m => (m.inPortOf, m.cookieOf)))) =
      some [(some 1, 2), (some 2, 2), (some 3, 2)] ∧
    ((c5_state.add_static_rules 0).map
        (fun p => alookup ([1] : Tuple) p.1.tuple_to_group)) =
      some (some 0) ∧
    (2 : ℕ) ≠ 0 := by
  refine ⟨by decide, by decide, by decide⟩

/-! ### C8: the group allocator -/

/-- States reachable from a fresh `SwitchStatus` by sequences of
(successful) `claim_group_for_tuple` and `release_tuple` calls. -/
inductive GReachable : SwitchState → Prop
  | init : GReachable SwitchState.init
  | claim (s s' : SwitchState) (t : Tuple) (g : ℕ) (b : Bool) :
      GReachable s → s.claim_group_for_tuple t = some (g, b, s') →
      GReachable s'
  | release (s : SwitchState) (t : Tuple) :
      GReachable s → GReachable (s.release_tuple t).2

/-- `free_groups` stays non-empty under claims and releases. -/
theorem gReachable_free_nonempty {st : SwitchState} (h : GReachable st) :
    st.free_groups.Nonempty := by
  induction h with
  | init => exact ⟨0, by decide⟩
  | claim s s' t g b _ heq ih =>
    unfold SwitchState.claim_group_for_tuple at heq
    cases hl : alookup t s.tuple_to_group with
    | some g0 =>
      rw [hl] at heq
      cases heq
      exact ih
    | none =>
      rw [hl] at heq
      by_cases hne : s.free_groups.Nonempty
      · rw [dif_pos hne] at heq
        cases heq
        by_cases hfg : s.free_groups.erase (s.free_groups.min' hne) = ∅
        · refine ⟨s.free_groups.min' hne + 1, ?_⟩
          simp [hfg]
        · simpa [hfg] using Finset.nonempty_iff_ne_empty.mpr hfg
      · rw [dif_neg hne] at heq
        cases heq
  | release s t _ ih =>
    unfold SwitchState.release_tuple
    cases hl : alookup t s.tuple_to_group with
    | none => simpa [hl] using ih
    | some g => simp [hl]

/-- C8 (amended): in every state reachable by claim/release sequences,
`free_groups` is non-empty (so `min(free_groups)` is defined); and
immediately after a `release_tuple` that releases a group `g`, `g` is in
`free_groups`, so `min(free_groups) ≤ g` — equality can fail when a
smaller id was already free. -/
theorem C8_group_allocator (st : SwitchState) (h : GReachable st) :
    st.free_groups.Nonempty ∧
    ∀ (t : Tuple) (g : ℕ) (st2 : SwitchState),
      st.release_tuple t = (some g, st2) →
      g ∈ st2.free_groups ∧
      ∀ h2 : st2.free_groups.Nonempty, st2.free_groups.min' h2 ≤ g := by
  refine ⟨gReachable_free_nonempty h, ?_⟩
  intro t g st2 heq
  unfold SwitchState.release_tuple at heq
  cases hl : alookup t st.tuple_to_group with
  | none =>
    rw [hl] at heq
    cases heq
  | some g0 =>
    rw [hl] at heq
    cases heq
    exact ⟨Finset.mem_insert_self _ _,
      fun h2 => Finset.min'_le _ _ (Finset.mem_insert_self _ _)⟩

/-- Witness for C8 at the fresh switch state. -/
theorem C8_group_allocator_witness :
    SwitchState.init.free_groups.Nonempty ∧
    ∀ (t : Tuple) (g : ℕ) (st2 : SwitchState),
      SwitchState.init.release_tuple t = (some g, st2) →
      g ∈ st2.free_groups ∧
      ∀ h2 : st2.free_groups.Nonempty, st2.free_groups.min' h2 ≤ g :=
  C8_group_allocator SwitchState.init GReachable.init

/-- Advance a state by one (successful) group claim; the identity when the
claim fails.  Test harness for the C8 counterexample. -/
def claimStep (st : SwitchState) (t : Tuple) : SwitchState :=
  match st.claim_group_for_tuple t with
  | none => st
  | some (_, _, s') => s'

theorem gReachable_claimStep {st : SwitchState} (t : Tuple)
    (h : GReachable st) : GReachable (claimStep st t) := by
  unfold claimStep
  cases heq : st.claim_group_for_tuple t with
  | none => exact h
  | some r => exact GReachable.claim st r.2.2 t r.1 r.2.1 h (by rw [heq])

/-- After claiming groups 0, 1, 2 for tuples `(0)`, `(1)`, `(2)` and then
releasing `(1)` (so `free_groups = {1, 3}`). -/
def c8_state : SwitchState :=
  ((claimStep (claimStep (claimStep SwitchState.init [0]) [1]) [2]).release_tuple
    [1]).2

/-- C8 counterexample: `c8_state` is claim/release-reachable; releasing
`(2)` there releases group 2, yet `min(free_groups)` afterwards is 1, not
the released id 2. -/
theorem C8_group_allocator_counterexample :
    GReachable c8_state ∧
    (c8_state.release_tuple [2]).1 = some 2 ∧
    (c8_state.release_tuple [2]).2.free_groups.min = ((1 : ℕ) : WithTop ℕ) ∧
    ((1 : ℕ) : WithTop ℕ) ≠ ((2 : ℕ) : WithTop ℕ) := by
  refine ⟨?_, by decide, by decide, by decide⟩
  exact GReachable.release _ [1]
    (gReachable_claimStep [2]
      (gReachable_claimStep [1] (gReachable_claimStep [0] GReachable.init)))

/-! ### The structural invariant of the slice index -/

/-- The structural invariant `adopt`/`abandon` maintain: the index has no
duplicate keys; index entries and slice targets are two views of the same
ownership relation; no two distinct indexed tuples conflict; and every
live slice id is below `next_id`. -/
structure SliceInv (st : SwitchState) : Prop where
  ndk : NoDupKeys st.target_index
  dir1 : ∀ t sid, alookup t st.target_index = some sid →
    ∃ d, alookup sid st.slices = some d ∧ t ∈ d.target
  dir2 : ∀ sid d t, alookup sid st.slices = some d → t ∈ d.target →
    alookup t st.target_index = some sid
  uniq : ∀ t u, alookup t st.target_index ≠ none →
    alookup u st.target_index ≠ none → t ≠ u → tuples_conflict t u = false
  fresh : ∀ sid, alookup sid st.slices ≠ none → sid < st.next_id

/-- Equality of everything `adopt`/`abandon` leave alone. -/
def AuxFieldsEq (a b : SwitchState) : Prop :=
  a.known_ports = b.known_ports ∧ a.next_id = b.next_id ∧
  a.datapath = b.datapath ∧ a.free_groups = b.free_groups ∧
  a.tuple_to_group = b.tuple_to_group ∧ a.group_to_tuple = b.group_to_tuple ∧
  a.invalid_first_tag_rules = b.invalid_first_tag_rules

theorem auxFieldsEq_refl (a : SwitchState) : AuxFieldsEq a a :=
  ⟨rfl, rfl, rfl, rfl, rfl, rfl, rfl⟩

theorem auxFieldsEq_trans {a b c : SwitchState} (h1 : AuxFieldsEq a b)
    (h2 : AuxFieldsEq b c) : AuxFieldsEq a c := by
  obtain ⟨k1, n1, d1, f1, t1, g1, i1⟩ := h1
  obtain ⟨k2, n2, d2, f2, t2, g2, i2⟩ := h2
  exact ⟨k1.trans k2, n1.trans n2, d1.trans d2, f1.trans f2, t1.trans t2,
    g1.trans g2, i1.trans i2⟩

theorem inv_init : SliceInv SwitchState.init := by
  constructor
  · exact List.Pairwise.nil
  · intro t sid h
    simp [alookup, SwitchState.init] at h
  · intro sid d t h
    simp [alookup, SwitchState.init] at h
  · intro t u h1 _ _
    exact absurd rfl h1
  · intro sid h
    exact absurd rfl h

/-- The invariant only looks at the index, the slice table and `next_id`. -/
theorem inv_transfer {st st' : SwitchState} (h : SliceInv st)
    (hidx : st'.target_index = st.target_index)
    (hslc : st'.slices = st.slices) (hnid : st'.next_id = st.next_id) :
    SliceInv st' := by
  constructor
  · rw [hidx]; exact h.ndk
  · intro t sid ht
    rw [hidx] at ht
    rw [hslc]
    exact h.dir1 t sid ht
  · intro sid d t hs htd
    rw [hslc] at hs
    rw [hidx]
    exact h.dir2 sid d t hs htd
  · intro t u h1 h2 hne
    rw [hidx] at h1 h2
    exact h.uniq t u h1 h2 hne
  · intro sid hs
    rw [hslc] at hs
    rw [hnid]
    exact h.fresh sid hs

theorem alookup_aerase_ne_none {α β : Type} [DecidableEq α] {a a' : α}
    {l : List (α × β)} (h : alookup a' (aerase a l) ≠ none) :
    alookup a' l ≠ none := by
  by_cases hq : a = a'
  · subst hq
    rw [alookup_aerase_self] at h
    exact absurd rfl h
  · rwa [alookup_aerase_ne l hq] at h

/-! #### `abandon` -/

/-- The full effect of `abandon sid t` when `t` is indexed to `sid`. -/
structure AbandonFacts (st st' : SwitchState) (t : Tuple) : Prop where
  idx : st'.target_index = aerase t st.target_index
  slc : ∀ s', alookup s' st'.slices = (alookup s' st.slices).map
    (fun dd => ⟨dd.target.erase t, dd.established, dd.sanitized⟩)
  aux : AuxFieldsEq st' st

theorem abandon_eq_of_not_owner {st : SwitchState} {sid : ℕ} {t : Tuple}
    (hInv : SliceInv st) (ho : alookup t st.target_index ≠ some sid) :
    st.abandon sid t = st := by
  unfold SwitchState.abandon
  cases hd : alookup sid st.slices with
  | none => rfl
  | some d =>
    dsimp only
    rw [if_pos ?hc]
    case hc =>
      intro hmem
      exact ho (hInv.dir2 sid d t hd hmem)

theorem abandon_desc {st : SwitchState} {sid : ℕ} {t : Tuple}
    (hInv : SliceInv st) (ho : alookup t st.target_index = some sid) :
    AbandonFacts st (st.abandon sid t) t := by
  obtain ⟨d, hd, htd⟩ := hInv.dir1 t sid ho
  unfold SwitchState.abandon
  rw [hd]
  dsimp only
  rw [if_neg (not_not_intro htd)]
  refine ⟨rfl, ?_, auxFieldsEq_refl _⟩
  intro s'
  by_cases hs : sid = s'
  · subst hs
    rw [alookup_ainsert_self, hd]
    rfl
  · rw [alookup_ainsert_ne _ _ hs]
    cases hdd : alookup s' st.slices with
    | none => rfl
    | some dd =>
      have hnot : t ∉ dd.target := by
        intro hmem
        have := hInv.dir2 s' dd t hdd hmem
        rw [ho] at this
        exact hs (Option.some_injective _ this)
      simp only [Option.map_some']
      congr 1
      have : dd.target.erase t = dd.target := Finset.erase_eq_of_not_mem hnot
      calc dd = ⟨dd.target, dd.established, dd.sanitized⟩ := rfl
        _ = ⟨dd.target.erase t, dd.established, dd.sanitized⟩ := by rw [this]

theorem abandon_inv {st : SwitchState} (sid : ℕ) (t : Tuple)
    (hInv : SliceInv st) : SliceInv (st.abandon sid t) := by
  by_cases ho : alookup t st.target_index = some sid
  · have F := abandon_desc hInv ho
    constructor
    · rw [F.idx]
      exact noDupKeys_aerase _ hInv.ndk
    · intro x s hx
      rw [F.idx] at hx
      by_cases hxt : t = x
      · subst hxt
        rw [alookup_aerase_self] at hx
        cases hx
      · rw [alookup_aerase_ne _ hxt] at hx
        obtain ⟨dd, hdd, hmem⟩ := hInv.dir1 x s hx
        refine ⟨⟨dd.target.erase t, dd.established, dd.sanitized⟩, ?_, ?_⟩
        · rw [F.slc s, hdd]
          rfl
        · exact Finset.mem_erase.mpr ⟨fun hc => hxt hc.symm, hmem⟩
    · intro s dd' x hs hx
      rw [F.slc s] at hs
      cases hdd : alookup s st.slices with
      | none => rw [hdd] at hs; cases hs
      | some dd =>
        rw [hdd] at hs
        simp only [Option.map_some', Option.some_inj] at hs
        rw [← hs] at hx
        have hxm := Finset.mem_erase.mp hx
        have hor := hInv.dir2 s dd x hdd hxm.2
        rw [F.idx, alookup_aerase_ne _ (fun hc => hxm.1 hc.symm)]
        exact hor
    · intro x u hx hu hne
      rw [F.idx] at hx hu
      exact hInv.uniq x u (alookup_aerase_ne_none hx)
        (alookup_aerase_ne_none hu) hne
    · intro s hs
      rw [F.slc s] at hs
      have : alookup s st.slices ≠ none := by
        intro hc
        rw [hc] at hs
        exact hs rfl
      have := hInv.fresh s this
      have hnid : (st.abandon sid t).next_id = st.next_id := F.aux.2.1
      omega
  · rw [abandon_eq_of_not_owner hInv ho]
    exact hInv

theorem abandon_aux {st : SwitchState} (sid : ℕ) (t : Tuple) :
    AuxFieldsEq (st.abandon sid t) st := by
  unfold SwitchState.abandon
  cases hd : alookup sid st.slices with
  | none => exact auxFieldsEq_refl _
  | some d =>
    dsimp only
    by_cases hm : t ∈ d.target
    · rw [if_neg (not_not_intro hm)]
      exact auxFieldsEq_refl _
    · rw [if_pos hm]
      exact auxFieldsEq_refl _

/-- Effect of abandoning a list of (tuple, owner) pairs with distinct
tuples, each correctly indexed: the invariant is preserved, exactly those
tuples leave the index, and every slice's target is filtered by them. -/
theorem foldl_abandon_facts (L : List (Tuple × ℕ)) :
    ∀ st : SwitchState, SliceInv st →
    (∀ p ∈ L, alookup p.1 st.target_index = some p.2) →
    (L.map Prod.fst).Nodup →
    SliceInv (L.foldl (fun s p => s.abandon p.2 p.1) st) ∧
    (∀ x, alookup x (L.foldl (fun s p => s.abandon p.2 p.1) st).target_index =
      if x ∈ L.map Prod.fst then none else alookup x st.target_index) ∧
    (∀ s', alookup s' (L.foldl (fun s p => s.abandon p.2 p.1) st).slices =
      (alookup s' st.slices).map
        (fun dd => ⟨dd.target.filter (fun x => x ∉ L.map Prod.fst),
          dd.established, dd.sanitized⟩)) ∧
    AuxFieldsEq (L.foldl (fun s p => s.abandon p.2 p.1) st) st := by
  induction L with
  | nil =>
    intro st hInv _ _
    refine ⟨hInv, ?_, ?_, auxFieldsEq_refl _⟩
    · intro x
      simp
    · intro s'
      rw [List.foldl_nil]
      cases h : alookup s' st.slices with
      | none => rfl
      | some dd =>
        simp only [Option.map_some']
        congr 1
        have ht : dd.target.filter
            (fun x => x ∉ ([] : List (Tuple × ℕ)).map Prod.fst) = dd.target := by
          apply Finset.filter_true_of_mem
          intro x _
          simp
        calc dd = ⟨dd.target, dd.established, dd.sanitized⟩ := rfl
          _ = ⟨dd.target.filter
                (fun x => x ∉ ([] : List (Tuple × ℕ)).map Prod.fst),
              dd.established, dd.sanitized⟩ := by rw [ht]
  | cons p L' ih =>
    intro st hInv hL hNd
    have hp : alookup p.1 st.target_index = some p.2 :=
      hL p (List.mem_cons_self p L')
    have F := abandon_desc hInv hp
    have hInv1 := abandon_inv p.2 p.1 hInv
    have hNd' : (p.1 :: L'.map Prod.fst).Nodup := by simpa using hNd
    have hkey : p.1 ∉ L'.map Prod.fst := (List.nodup_cons.mp hNd').1
    have hL' : ∀ q ∈ L',
        alookup q.1 (st.abandon p.2 p.1).target_index = some q.2 := by
      intro q hq
      rw [F.idx]
      have hne : p.1 ≠ q.1 :=
        fun hc => hkey (hc ▸ List.mem_map_of_mem Prod.fst hq)
      rw [alookup_aerase_ne _ hne]
      exact hL q (List.mem_cons_of_mem p hq)
    obtain ⟨ihInv, ihOwns, ihSlc, ihAux⟩ :=
      ih (st.abandon p.2 p.1) hInv1 hL' (List.nodup_cons.mp hNd').2
    rw [List.foldl_cons]
    refine ⟨ihInv, ?_, ?_, auxFieldsEq_trans ihAux F.aux⟩
    · intro x
      rw [ihOwns x]
      by_cases hx1 : x ∈ L'.map Prod.fst
      · rw [if_pos hx1, if_pos (by simp [hx1])]
      · rw [if_neg hx1, F.idx]
        by_cases hxp : x = p.1
        · subst hxp
          rw [alookup_aerase_self, if_pos (by simp)]
        · rw [alookup_aerase_ne _ (fun hc => hxp hc.symm),
            if_neg (by simp [hx1, hxp])]
    · intro s'
      rw [ihSlc s', F.slc s']
      cases h : alookup s' st.slices with
      | none => rfl
      | some dd =>
        simp only [Option.map_some']
        congr 1
        have ht : (dd.target.erase p.1).filter
            (fun x => x ∉ L'.map Prod.fst) =
            dd.target.filter (fun x => x ∉ (p :: L').map Prod.fst) := by
          ext x
          simp only [Finset.mem_filter, Finset.mem_erase, List.map_cons,
            List.mem_cons]
          constructor
          · rintro ⟨⟨hne, hmem⟩, hnot⟩
            exact ⟨hmem, by tauto⟩
          · rintro ⟨hmem, hnot⟩
            refine ⟨⟨?_, hmem⟩, ?_⟩ <;> tauto
        rw [ht]

/-! #### `adopt` -/

theorem adopt_eq_of_no_slice {st : SwitchState} {sid : ℕ} {t : Tuple}
    (hd : alookup sid st.slices = none) : st.adopt sid t = st := by
  unfold SwitchState.adopt
  rw [hd]

theorem adopt_eq_of_mem {st : SwitchState} {sid : ℕ} {t : Tuple}
    {d : SliceData} (hd : alookup sid st.slices = some d)
    (hm : t ∈ d.target) : st.adopt sid t = st := by
  unfold SwitchState.adopt
  rw [hd]
  dsimp only
  rw [if_pos hm]

theorem abandon_slices_none_iff (st : SwitchState) (sid : ℕ) (t : Tuple)
    (s : ℕ) :
    (alookup s (st.abandon sid t).slices = none ↔
      alookup s st.slices = none) := by
  unfold SwitchState.abandon
  cases hd : alookup sid st.slices with
  | none => exact Iff.rfl
  | some d =>
    dsimp only
    by_cases hm : t ∈ d.target
    · rw [if_neg (not_not_intro hm)]
      by_cases hs : sid = s
      · subst hs
        rw [alookup_ainsert_self, hd]
        simp
      · rw [alookup_ainsert_ne _ _ hs]
    · rw [if_pos hm]

theorem foldl_abandon_slices_none_iff (L : List (Tuple × ℕ)) :
    ∀ (st : SwitchState) (s : ℕ),
    (alookup s (L.foldl (fun s2 p => s2.abandon p.2 p.1) st).slices = none ↔
      alookup s st.slices = none) := by
  induction L with
  | nil => intro st s; rw [List.foldl_nil]
  | cons p L' ih =>
    intro st s
    rw [List.foldl_cons]
    exact (ih (st.abandon p.2 p.1) s).trans
      (abandon_slices_none_iff st p.2 p.1 s)

theorem foldl_abandon_aux (L : List (Tuple × ℕ)) :
    ∀ st : SwitchState,
    AuxFieldsEq (L.foldl (fun s p => s.abandon p.2 p.1) st) st := by
  induction L with
  | nil => intro st; rw [List.foldl_nil]; exact auxFieldsEq_refl st
  | cons p L' ih =>
    intro st
    rw [List.foldl_cons]
    exact auxFieldsEq_trans (ih (st.abandon p.2 p.1)) (abandon_aux p.2 p.1)

/-- The membership condition of `adopt`'s abandon list. -/
theorem adopt_abd_keys_iff {st : SwitchState} (hInv : SliceInv st)
    (sid : ℕ) (t : Tuple) (x : Tuple) :
    (x ∈ (adoptAbd st sid t).map Prod.fst ↔
      ∃ s2, alookup x st.target_index = some s2 ∧
        tuples_conflict t x = true ∧ ¬(x = t ∧ s2 = sid)) := by
  unfold adoptAbd
  simp only [List.mem_map]
  constructor
  · rintro ⟨q, hq, rfl⟩
    obtain ⟨hqm, hqc⟩ := List.mem_filter.mp hq
    refine ⟨q.2, alookup_eq_some_of_mem hInv.ndk hqm, ?_⟩
    have := (by simpa [Bool.and_eq_true, Bool.not_eq_true', not_and_or]
      using hqc : tuples_conflict t q.1 = true ∧ (¬q.1 = t ∨ ¬q.2 = sid))
    exact ⟨this.1, fun hc => this.2.elim (fun h => h hc.1) (fun h => h hc.2)⟩
  · rintro ⟨s2, hlk, hc, hns⟩
    refine ⟨(x, s2), List.mem_filter.mpr ⟨mem_of_alookup_eq_some hlk, ?_⟩, rfl⟩
    have hns2 : ¬x = t ∨ ¬s2 = sid := by tauto
    simpa [Bool.and_eq_true, Bool.not_eq_true', not_and_or] using ⟨hc, hns2⟩

/-- The full effect of `adopt sid t` on a live slice `sid` not yet owning
`t`. -/
structure AdoptFacts (st st' : SwitchState) (sid : ℕ) (t : Tuple)
    (d : SliceData) : Prop where
  owns : ∀ x, alookup x st'.target_index =
    if x = t then some sid
    else if tuples_conflict t x = true ∧ alookup x st.target_index ≠ none
    then none else alookup x st.target_index
  slcSelf : alookup sid st'.slices =
    some ⟨insert t (d.target.filter (fun x => tuples_conflict t x = false)),
      d.established, d.sanitized⟩
  slcOther : ∀ s', s' ≠ sid → alookup s' st'.slices =
    (alookup s' st.slices).map
      (fun dd => ⟨dd.target.filter (fun x => tuples_conflict t x = false),
        dd.established, dd.sanitized⟩)
  aux : AuxFieldsEq st' st
  inv : SliceInv st'

theorem adopt_desc {st : SwitchState} {sid : ℕ} {t : Tuple} {d : SliceData}
    (hInv : SliceInv st) (hd : alookup sid st.slices = some d)
    (hmem : t ∉ d.target) : AdoptFacts st (st.adopt sid t) sid t d := by
  have hL : ∀ p ∈ adoptAbd st sid t, alookup p.1 st.target_index = some p.2 := by
    intro p hp
    exact alookup_eq_some_of_mem hInv.ndk (List.mem_filter.mp hp).1
  have hNdk : NoDupKeys (adoptAbd st sid t) := List.Pairwise.filter _ hInv.ndk
  have hNd : ((adoptAbd st sid t).map Prod.fst).Nodup :=
    (List.pairwise_map).mpr hNdk
  obtain ⟨hInv1, hOwns1, hSlc1, hAux1⟩ :=
    foldl_abandon_facts (adoptAbd st sid t) st hInv hL hNd
  have hkeys := fun x => adopt_abd_keys_iff hInv sid t x
  have hto : alookup t st.target_index ≠ some sid := by
    intro hc
    obtain ⟨d', hd', hm'⟩ := hInv.dir1 t sid hc
    rw [hd] at hd'
    cases hd'
    exact hmem hm'
  have howns1t :
      alookup t ((adoptAbd st sid t).foldl
        (fun s p => s.abandon p.2 p.1) st).target_index = none := by
    rw [hOwns1 t]
    by_cases hk : t ∈ (adoptAbd st sid t).map Prod.fst
    · rw [if_pos hk]
    · rw [if_neg hk]
      cases hlt : alookup t st.target_index with
      | none => rfl
      | some s2 =>
        exfalso
        apply hk
        refine (hkeys t).mpr ⟨s2, hlt, tuples_conflict_refl t, ?_⟩
        intro hc
        exact hto (by rw [hlt, hc.2])
  have hd1 : alookup sid ((adoptAbd st sid t).foldl
      (fun s p => s.abandon p.2 p.1) st).slices =
      some ⟨d.target.filter (fun x => x ∉ (adoptAbd st sid t).map Prod.fst),
        d.established, d.sanitized⟩ := by
    rw [hSlc1 sid, hd]
    rfl
  have hbooltrue : ∀ x : Tuple, tuples_conflict t x ≠ false →
      tuples_conflict t x = true := by
    intro x h
    cases hc : tuples_conflict t x
    · exact absurd hc h
    · rfl
  have hfs : d.target.filter
      (fun x => x ∉ (adoptAbd st sid t).map Prod.fst)
      = d.target.filter (fun x => tuples_conflict t x = false) := by
    ext x
    simp only [Finset.mem_filter]
    constructor
    · rintro ⟨hx, hnk⟩
      refine ⟨hx, ?_⟩
      by_contra hcf
      apply hnk
      refine (hkeys x).mpr ⟨sid, hInv.dir2 sid d x hd hx, hbooltrue x hcf, ?_⟩
      rintro ⟨hxt, _⟩
      exact hmem (hxt ▸ hx)
    · rintro ⟨hx, hcf⟩
      refine ⟨hx, ?_⟩
      intro hk
      obtain ⟨s2, _, hc, _⟩ := (hkeys x).mp hk
      rw [hcf] at hc
      cases hc
  have hfo : ∀ (s' : ℕ), s' ≠ sid → ∀ dd : SliceData,
      alookup s' st.slices = some dd →
      dd.target.filter (fun x => x ∉ (adoptAbd st sid t).map Prod.fst)
        = dd.target.filter (fun x => tuples_conflict t x = false) := by
    intro s' hs dd hdd
    ext x
    simp only [Finset.mem_filter]
    constructor
    · rintro ⟨hx, hnk⟩
      refine ⟨hx, ?_⟩
      by_contra hcf
      apply hnk
      refine (hkeys x).mpr ⟨s', hInv.dir2 s' dd x hdd hx, hbooltrue x hcf, ?_⟩
      rintro ⟨_, hss⟩
      exact hs hss
    · rintro ⟨hx, hcf⟩
      refine ⟨hx, ?_⟩
      intro hk
      obtain ⟨s2, _, hc, _⟩ := (hkeys x).mp hk
      rw [hcf] at hc
      cases hc
  have hstep : st.adopt sid t =
      { ((adoptAbd st sid t).foldl (fun s p => s.abandon p.2 p.1) st) with
        slices := ainsert sid
          ⟨insert t (d.target.filter
              (fun x => x ∉ (adoptAbd st sid t).map Prod.fst)),
            d.established, d.sanitized⟩
          ((adoptAbd st sid t).foldl (fun s p => s.abandon p.2 p.1) st).slices,
        target_index := ainsert t sid
          ((adoptAbd st sid t).foldl
            (fun s p => s.abandon p.2 p.1) st).target_index,
        invalid_slices := insert sid
          ((adoptAbd st sid t).foldl
            (fun s p => s.abandon p.2 p.1) st).invalid_slices } := by
    unfold SwitchState.adopt
    rw [hd]
    dsimp only
    rw [if_neg hmem, hd1]
  rw [hstep]
  set st1 := (adoptAbd st sid t).foldl (fun s p => s.abandon p.2 p.1) st
    with hst1def
  constructor
  case owns =>
    intro x
    by_cases hx : x = t
    · subst hx
      rw [if_pos rfl]
      exact alookup_ainsert_self x sid _
    · show alookup x (ainsert t sid st1.target_index) = _
      rw [alookup_ainsert_ne _ _ (fun hc => hx hc.symm), if_neg hx, hOwns1 x]
      by_cases hc : tuples_conflict t x = true ∧
          alookup x st.target_index ≠ none
      · rw [if_pos ?ink, if_pos hc]
        case ink =>
          obtain ⟨hc1, hc2⟩ := hc
          cases hlx : alookup x st.target_index with
          | none => exact absurd hlx hc2
          | some s2 =>
            exact (hkeys x).mpr ⟨s2, hlx, hc1, fun hq => hx hq.1⟩
      · rw [if_neg ?nink, if_neg hc]
        case nink =>
          intro hk
          obtain ⟨s2, hlx, hcf, _⟩ := (hkeys x).mp hk
          exact hc ⟨hcf, by rw [hlx]; exact Option.some_ne_none s2⟩
  case slcSelf =>
    show alookup sid (ainsert sid _ st1.slices) = _
    rw [alookup_ainsert_self, hfs]
  case slcOther =>
    intro s' hs
    show alookup s' (ainsert sid _ st1.slices) = _
    rw [alookup_ainsert_ne _ _ (fun hc => hs hc.symm), hSlc1 s']
    cases hdd : alookup s' st.slices with
    | none => rfl
    | some dd =>
      simp only [Option.map_some']
      rw [hfo s' hs dd hdd]
  case aux =>
    exact hAux1
  case inv =>
    constructor
    · show NoDupKeys (ainsert t sid st1.target_index)
      exact noDupKeys_ainsert _ _ hInv1.ndk
    · intro x s hx
      by_cases hxt : x = t
      · subst hxt
        rw [show alookup x (ainsert x sid st1.target_index) = some sid from
          alookup_ainsert_self x sid _] at hx
        have hseq : sid = s := Option.some_injective _ hx
        refine ⟨⟨insert x (d.target.filter
            (fun y => y ∉ (adoptAbd st sid x).map Prod.fst)),
          d.established, d.sanitized⟩, ?_, Finset.mem_insert_self x _⟩
        rw [← hseq]
        exact alookup_ainsert_self sid _ _
      · rw [show alookup x (ainsert t sid st1.target_index) =
            alookup x st1.target_index from
          alookup_ainsert_ne _ _ (fun hc => hxt hc.symm)] at hx
        obtain ⟨dd1, hdd1, hmem1⟩ := hInv1.dir1 x s hx
        by_cases hss : s = sid
        · rw [hss] at hdd1 ⊢
          rw [hd1] at hdd1
          have hddq : dd1 = ⟨d.target.filter
              (fun y => y ∉ (adoptAbd st sid t).map Prod.fst),
            d.established, d.sanitized⟩ := (Option.some_injective _ hdd1).symm
          refine ⟨⟨insert t (d.target.filter
              (fun y => y ∉ (adoptAbd st sid t).map Prod.fst)),
            d.established, d.sanitized⟩, ?_, ?_⟩
          · exact alookup_ainsert_self sid _ _
          · refine Finset.mem_insert_of_mem ?_
            rw [hddq] at hmem1
            exact hmem1
        · refine ⟨dd1, ?_, hmem1⟩
          show alookup s (ainsert sid _ st1.slices) = _
          rw [alookup_ainsert_ne _ _ (fun hc => hss hc.symm)]
          exact hdd1
    · intro s dd' x hs hx
      by_cases hss : s = sid
      · rw [hss] at hs ⊢
        rw [show alookup sid (ainsert sid
            (⟨insert t (d.target.filter
                (fun x => x ∉ (adoptAbd st sid t).map Prod.fst)),
              d.established, d.sanitized⟩ : SliceData) st1.slices) =
            some ⟨insert t (d.target.filter
                (fun x => x ∉ (adoptAbd st sid t).map Prod.fst)),
              d.established, d.sanitized⟩ from alookup_ainsert_self _ _ _] at hs
        have hdq : dd' = ⟨insert t (d.target.filter
            (fun x => x ∉ (adoptAbd st sid t).map Prod.fst)),
          d.established, d.sanitized⟩ := (Option.some_injective _ hs).symm
        rw [hdq] at hx
        rcases Finset.mem_insert.mp hx with hxt | hxd
        · subst hxt
          exact alookup_ainsert_self _ _ _
        · have hx1 : alookup x st1.target_index = some sid :=
            hInv1.dir2 sid _ x hd1 hxd
          have hxt : x ≠ t := by
            intro hc
            rw [hc, howns1t] at hx1
            cases hx1
          show alookup x (ainsert t sid st1.target_index) = some sid
          rw [alookup_ainsert_ne _ _ (fun hc => hxt hc.symm)]
          exact hx1
      · rw [show alookup s (ainsert sid _ st1.slices) =
            alookup s st1.slices from
          alookup_ainsert_ne _ _ (fun hc => hss hc.symm)] at hs
        have hx1 : alookup x st1.target_index = some s :=
          hInv1.dir2 s dd' x hs hx
        have hxt : x ≠ t := by
          intro hc
          rw [hc, howns1t] at hx1
          cases hx1
        show alookup x (ainsert t sid st1.target_index) = some s
        rw [alookup_ainsert_ne _ _ (fun hc => hxt hc.symm)]
        exact hx1
    · intro x u hx hu hne
      by_cases hxt : x = t
      · subst hxt
        have hut : u ≠ x := fun hc => hne hc.symm
        have hu1 : alookup u st1.target_index ≠ none := by
          rw [show alookup u (ainsert x sid st1.target_index) =
              alookup u st1.target_index from
            alookup_ainsert_ne _ _ (fun hc => hut hc.symm)] at hu
          exact hu
        rw [hOwns1 u] at hu1
        by_cases hk : u ∈ (adoptAbd st sid x).map Prod.fst
        · rw [if_pos hk] at hu1
          exact absurd rfl hu1
        · rw [if_neg hk] at hu1
          cases hlu : alookup u st.target_index with
          | none => exact absurd hlu hu1
          | some s2 =>
            by_cases hcf : tuples_conflict x u = false
            · exact hcf
            · exfalso
              apply hk
              exact (hkeys u).mpr ⟨s2, hlu, hbooltrue u hcf,
                fun hq => hut hq.1⟩
      · by_cases hut : u = t
        · subst hut
          have hx1 : alookup x st1.target_index ≠ none := by
            rw [show alookup x (ainsert u sid st1.target_index) =
                alookup x st1.target_index from
              alookup_ainsert_ne _ _ (fun hc => hxt hc.symm)] at hx
            exact hx
          rw [hOwns1 x] at hx1
          by_cases hk : x ∈ (adoptAbd st sid u).map Prod.fst
          · rw [if_pos hk] at hx1
            exact absurd rfl hx1
          · rw [if_neg hk] at hx1
            cases hlx : alookup x st.target_index with
            | none => exact absurd hlx hx1
            | some s2 =>
              by_cases hcf : tuples_conflict u x = false
              · rw [tuples_conflict_comm]
                exact hcf
              · exfalso
                apply hk
                exact (hkeys x).mpr ⟨s2, hlx, hbooltrue x hcf,
                  fun hq => hxt hq.1⟩
        · have hx1 : alookup x st1.target_index ≠ none := by
            rw [show alookup x (ainsert t sid st1.target_index) =
                alookup x st1.target_index from
              alookup_ainsert_ne _ _ (fun hc => hxt hc.symm)] at hx
            exact hx
          have hu1 : alookup u st1.target_index ≠ none := by
            rw [show alookup u (ainsert t sid st1.target_index) =
                alookup u st1.target_index from
              alookup_ainsert_ne _ _ (fun hc => hut hc.symm)] at hu
            exact hu
          exact hInv1.uniq x u hx1 hu1 hne
    · intro s hs
      show s < st1.next_id
      have hnid : st1.next_id = st.next_id := hAux1.2.1
      rw [hnid]
      by_cases hss : s = sid
      · subst hss
        refine hInv.fresh s ?_
        rw [hd]
        exact Option.some_ne_none d
      · rw [show alookup s (ainsert sid _ st1.slices) =
            alookup s st1.slices from
          alookup_ainsert_ne _ _ (fun hc => hss hc.symm)] at hs
        have := hInv1.fresh s hs
        omega

theorem adopt_inv {st : SwitchState} (sid : ℕ) (t : Tuple)
    (hInv : SliceInv st) : SliceInv (st.adopt sid t) := by
  cases hd : alookup sid st.slices with
  | none => rw [adopt_eq_of_no_slice hd]; exact hInv
  | some d =>
    by_cases hm : t ∈ d.target
    · rw [adopt_eq_of_mem hd hm]; exact hInv
    · exact (adopt_desc hInv hd hm).inv

theorem adopt_aux {st : SwitchState} (sid : ℕ) (t : Tuple)
    (hInv : SliceInv st) : AuxFieldsEq (st.adopt sid t) st := by
  cases hd : alookup sid st.slices with
  | none => rw [adopt_eq_of_no_slice hd]; exact auxFieldsEq_refl st
  | some d =>
    by_cases hm : t ∈ d.target
    · rw [adopt_eq_of_mem hd hm]; exact auxFieldsEq_refl st
    · exact (adopt_desc hInv hd hm).aux

theorem adopt_slices_none_iff {st : SwitchState} (sid : ℕ) (t : Tuple)
    (hInv : SliceInv st) (s : ℕ) :
    (alookup s (st.adopt sid t).slices = none ↔
      alookup s st.slices = none) := by
  cases hd : alookup sid st.slices with
  | none => rw [adopt_eq_of_no_slice hd]
  | some d =>
    by_cases hm : t ∈ d.target
    · rw [adopt_eq_of_mem hd hm]
    · have F := adopt_desc hInv hd hm
      by_cases hs : s = sid
      · subst hs
        rw [F.slcSelf, hd]
        simp
      · rw [F.slcOther s hs]
        cases h : alookup s st.slices <;> simp [h]

/-- Uniform description of ownership after `adopt sid t` on a live slice
(valid both when the adoption is a no-op because `t` was already owned,
and when it goes through). -/
theorem adopt_owns {st : SwitchState} {sid : ℕ} {t : Tuple} {d : SliceData}
    (hInv : SliceInv st) (hd : alookup sid st.slices = some d) :
    ∀ x, alookup x (st.adopt sid t).target_index =
      if x = t then some sid
      else if tuples_conflict t x = true ∧ alookup x st.target_index ≠ none
      then none else alookup x st.target_index := by
  by_cases hm : t ∈ d.target
  · rw [adopt_eq_of_mem hd hm]
    intro x
    have hts : alookup t st.target_index = some sid := hInv.dir2 sid d t hd hm
    by_cases hx : x = t
    · subst hx
      rw [if_pos rfl]
      exact hts
    · rw [if_neg hx]
      by_cases hc : tuples_conflict t x = true ∧
          alookup x st.target_index ≠ none
      · exfalso
        have := hInv.uniq t x (by rw [hts]; exact Option.some_ne_none sid)
          hc.2 (fun hq => hx hq.symm)
        rw [this] at hc
        cases hc.1
      · rw [if_neg hc]
  · exact (adopt_desc hInv hd hm).owns

/-- Adopting a duplicate-free list of pairwise non-conflicting tuples into
a live slice: every listed tuple ends up owned by the slice; ownership of
any other tuple that conflicts with none of them is untouched; no tuple
outside the list gains an owner. -/
theorem adoptAll_facts (L : List Tuple) :
    ∀ st : SwitchState, ∀ sid : ℕ, SliceInv st →
    alookup sid st.slices ≠ none →
    L.Nodup →
    (∀ a ∈ L, ∀ b ∈ L, a ≠ b → tuples_conflict a b = false) →
    SliceInv (adoptAll sid L st) ∧
    alookup sid (adoptAll sid L st).slices ≠ none ∧
    AuxFieldsEq (adoptAll sid L st) st ∧
    (∀ x ∈ L, alookup x (adoptAll sid L st).target_index = some sid) ∧
    (∀ x, x ∉ L → (∀ a ∈ L, tuples_conflict a x = false) →
      alookup x (adoptAll sid L st).target_index =
        alookup x st.target_index) ∧
    (∀ x, x ∉ L → (alookup x (adoptAll sid L st).target_index = none ∨
      alookup x (adoptAll sid L st).target_index =
        alookup x st.target_index)) := by
  induction L with
  | nil =>
    intro st sid hInv hsl _ _
    refine ⟨hInv, hsl, auxFieldsEq_refl _, ?_, ?_, ?_⟩
    · intro x hx
      cases hx
    · intro x _ _
      rfl
    · intro x _
      right
      rfl
  | cons a L' ih =>
    intro st sid hInv hsl hNd hpair
    cases hd : alookup sid st.slices with
    | none => exact absurd hd hsl
    | some d =>
    have howns := adopt_owns (t := a) hInv hd
    have hInv2 := adopt_inv sid a hInv
    have hsl2 : alookup sid (st.adopt sid a).slices ≠ none := by
      intro hc
      exact hsl ((adopt_slices_none_iff sid a hInv sid).mp hc)
    have hNd' := List.nodup_cons.mp hNd
    have hpair' : ∀ x ∈ L', ∀ y ∈ L', x ≠ y → tuples_conflict x y = false :=
      fun x hx y hy => hpair x (List.mem_cons_of_mem a hx) y
        (List.mem_cons_of_mem a hy)
    obtain ⟨jInv, jsl, jaux, jmem, jpres, jnone⟩ :=
      ih (st.adopt sid a) sid hInv2 hsl2 hNd'.2 hpair'
    have hstep : adoptAll sid (a :: L') st = adoptAll sid L' (st.adopt sid a) := by
      unfold adoptAll
      rw [List.foldl_cons]
    rw [hstep]
    refine ⟨jInv, jsl, auxFieldsEq_trans jaux (adopt_aux sid a hInv), ?_, ?_, ?_⟩
    · intro x hx
      rcases List.mem_cons.mp hx with hxa | hxL
      · subst hxa
        rw [jpres x hNd'.1 (fun b hb => by
          have hba : b ≠ x := by
            intro hc
            exact hNd'.1 (hc ▸ hb)
          exact hpair b (List.mem_cons_of_mem x hb) x
            (List.mem_cons_self x L') hba)]
        rw [howns x, if_pos rfl]
      · exact jmem x hxL
    · intro x hx hnc
      have hxa : x ≠ a := fun hc => hx (hc ▸ List.mem_cons_self a L')
      have hxL : x ∉ L' := fun hc => hx (List.mem_cons_of_mem a hc)
      rw [jpres x hxL (fun b hb => hnc b (List.mem_cons_of_mem a hb))]
      rw [howns x, if_neg hxa]
      have hca : tuples_conflict a x = false := hnc a (List.mem_cons_self a L')
      rw [if_neg (by rw [hca]; rintro ⟨hc, _⟩; cases hc)]
    · intro x hx
      have hxa : x ≠ a := fun hc => hx (hc ▸ List.mem_cons_self a L')
      have hxL : x ∉ L' := fun hc => hx (List.mem_cons_of_mem a hc)
      rcases jnone x hxL with h | h
      · left
        exact h
      · rw [h, howns x, if_neg hxa]
        by_cases hc : tuples_conflict a x = true ∧
            alookup x st.target_index ≠ none
        · left
          rw [if_pos hc]
        · right
          rw [if_neg hc]

/-! #### Remaining event steps preserve the invariant -/

theorem adoptAll_inv (sid : ℕ) (L : List Tuple) :
    ∀ st : SwitchState, SliceInv st → SliceInv (adoptAll sid L st) := by
  induction L with
  | nil => intro st hInv; exact hInv
  | cons a L' ih =>
    intro st hInv
    have hstep : adoptAll sid (a :: L') st = adoptAll sid L' (st.adopt sid a) := by
      unfold adoptAll
      rw [List.foldl_cons]
    rw [hstep]
    exact ih _ (adopt_inv sid a hInv)

theorem fresh_unlisted {st : SwitchState} (hInv : SliceInv st) :
    alookup st.next_id st.slices = none := by
  by_contra hc
  exact absurd (hInv.fresh st.next_id hc) (lt_irrefl _)

theorem addFreshSlice_inv {st : SwitchState} (hInv : SliceInv st) :
    SliceInv (addFreshSlice st) := by
  constructor
  · exact hInv.ndk
  · intro t sid ht
    obtain ⟨d, hd, hm⟩ := hInv.dir1 t sid ht
    refine ⟨d, ?_, hm⟩
    show alookup sid (ainsert st.next_id _ st.slices) = some d
    have hne : st.next_id ≠ sid := by
      intro hc
      rw [← hc, fresh_unlisted hInv] at hd
      cases hd
    rw [alookup_ainsert_ne _ _ hne]
    exact hd
  · intro sid d t hs hm
    by_cases hne : st.next_id = sid
    · subst hne
      rw [show alookup st.next_id (addFreshSlice st).slices =
          some ⟨∅, ∅, ∅⟩ from alookup_ainsert_self _ _ _] at hs
      cases hs
      cases hm
    · rw [show alookup sid (addFreshSlice st).slices =
          alookup sid st.slices from alookup_ainsert_ne _ _ hne] at hs
      exact hInv.dir2 sid d t hs hm
  · exact hInv.uniq
  · intro sid hs
    show sid < st.next_id + 1
    by_cases hne : st.next_id = sid
    · omega
    · rw [show alookup sid (addFreshSlice st).slices =
          alookup sid st.slices from alookup_ainsert_ne _ _ hne] at hs
      have := hInv.fresh sid hs
      omega

theorem foldl_state_fields {β : Type} (f : SwitchState → β → SwitchState)
    (hf : ∀ s x, (f s x).target_index = s.target_index ∧
      (f s x).slices = s.slices ∧ (f s x).next_id = s.next_id) :
    ∀ (L : List β) (st : SwitchState),
      (L.foldl f st).target_index = st.target_index ∧
      (L.foldl f st).slices = st.slices ∧
      (L.foldl f st).next_id = st.next_id := by
  intro L
  induction L with
  | nil => intro st; exact ⟨rfl, rfl, rfl⟩
  | cons x r ih =>
    intro st
    rw [List.foldl_cons]
    obtain ⟨h1, h2, h3⟩ := ih (f st x)
    obtain ⟨g1, g2, g3⟩ := hf st x
    exact ⟨h1.trans g1, h2.trans g2, h3.trans g3⟩

theorem port_added_inv {st : SwitchState} (p : Int) (hInv : SliceInv st) :
    SliceInv (st.port_added p) := by
  unfold SwitchState.port_added
  split_ifs with h
  · exact hInv
  · exact inv_transfer hInv rfl rfl rfl

theorem port_removed_inv {st : SwitchState} (p : Int) (hInv : SliceInv st) :
    SliceInv (st.port_removed p) := by
  unfold SwitchState.port_removed
  have h := foldl_state_fields
    (fun s q =>
      if q.1.getD 0 0 = p then
        { s with invalid_slices := insert q.2 s.invalid_slices }
      else s)
    (by
      intro s q
      dsimp only
      split_ifs <;> exact ⟨rfl, rfl, rfl⟩)
    st.target_index { st with known_ports := st.known_ports.erase p }
  exact inv_transfer hInv h.1 h.2.1 h.2.2

theorem discard_tuple_inv {st : SwitchState} (t : Tuple)
    (hInv : SliceInv st) : SliceInv (st.discard_tuple t) := by
  unfold SwitchState.discard_tuple
  cases h : alookup t st.target_index with
  | none => exact hInv
  | some sid => exact abandon_inv sid t hInv

theorem create_slice_inv {st : SwitchState} (T : Finset Tuple)
    (hInv : SliceInv st) : SliceInv (st.create_slice T).2 := by
  unfold SwitchState.create_slice
  by_cases h1 : T.card = 0
  · rw [if_pos h1]
    exact hInv
  rw [if_neg h1]
  by_cases h2 : ¬ ∀ t ∈ T, tuple_ok t = true
  · rw [if_pos h2]
    exact hInv
  rw [if_neg h2]
  by_cases h3 : ∃ t ∈ T, ∃ u ∈ T, t ≠ u ∧ tuples_conflict t u = true
  · rw [if_pos h3]
    exact hInv
  · rw [if_neg h3]
    cases hb : (bestOf st T).1 with
    | some bsid =>
      dsimp only
      exact adoptAll_inv _ _ _
        (addFreshSlice_inv (adoptAll_inv _ _ _ hInv))
    | none =>
      dsimp only
      exact adoptAll_inv _ _ _ (addFreshSlice_inv hInv)

/-- The states reachable from a fresh `SwitchStatus` by the events of C2:
`adopt`, `abandon` (with `Slice(self)` construction as in `create_slice`),
`create_slice`, `discard_tuple`, and port add/remove events. -/
inductive Reachable : SwitchState → Prop
  | init : Reachable SwitchState.init
  | adopt (st : SwitchState) (sid : ℕ) (t : Tuple) :
      Reachable st → Reachable (st.adopt sid t)
  | newSlice (st : SwitchState) : Reachable st → Reachable (addFreshSlice st)
  | abandonEv (st : SwitchState) (sid : ℕ) (t : Tuple) :
      Reachable st → Reachable (st.abandon sid t)
  | create (st : SwitchState) (T : Finset Tuple) :
      Reachable st → Reachable (st.create_slice T).2
  | discard (st : SwitchState) (t : Tuple) :
      Reachable st → Reachable (st.discard_tuple t)
  | portAdd (st : SwitchState) (p : Int) :
      Reachable st → Reachable (st.port_added p)
  | portRem (st : SwitchState) (p : Int) :
      Reachable st → Reachable (st.port_removed p)

theorem reachable_inv {st : SwitchState} (h : Reachable st) : SliceInv st := by
  induction h with
  | init => exact inv_init
  | adopt st sid t _ ih => exact adopt_inv sid t ih
  | newSlice st _ ih => exact addFreshSlice_inv ih
  | abandonEv st sid t _ ih => exact abandon_inv sid t ih
  | create st T _ ih => exact create_slice_inv T ih
  | discard st t _ ih => exact discard_tuple_inv t ih
  | portAdd st p _ ih => exact port_added_inv p ih
  | portRem st p _ ih => exact port_removed_inv p ih

/-- C2: cross-slice uniqueness is an invariant of the switch state: in
every state reachable from a fresh `SwitchStatus` by `adopt`, `abandon`,
`create_slice`, `discard_tuple` and port events, tuples owned (via
`target_index`) by two different slices never conflict.  (`adopt` abandons
every other owner of a conflicting tuple before taking one.) -/
theorem C2_cross_slice_uniqueness (st : SwitchState) (h : Reachable st)
    (t u : Tuple) (sid sid' : ℕ)
    (ht : alookup t st.target_index = some sid)
    (hu : alookup u st.target_index = some sid') (hne : sid ≠ sid') :
    tuples_conflict t u = false := by
  have hInv := reachable_inv h
  have htu : t ≠ u := by
    intro hc
    subst hc
    rw [ht] at hu
    exact hne (Option.some_injective _ hu)
  exact hInv.uniq t u (by rw [ht]; exact Option.some_ne_none sid)
    (by rw [hu]; exact Option.some_ne_none sid') htu

/-- Witness for C2: after creating the slices `{(1)}` and `{(2)}` on a
fresh switch, the two owners are slices 0 and 1 and their tuples do not
conflict. -/
theorem C2_cross_slice_uniqueness_witness :
    tuples_conflict [1] [2] = false :=
  C2_cross_slice_uniqueness
    ((SwitchState.init.create_slice {[1]}).2.create_slice {[2]}).2
    (Reachable.create _ {[2]} (Reachable.create _ {[1]} Reachable.init))
    [1] [2] 0 1 (by decide) (by decide) (by decide)

/-! ### C10: get_config -/

theorem mem_targetOfD_iff {st : SwitchState} (hInv : SliceInv st)
    (sid : ℕ) (x : Tuple) :
    x ∈ targetOfD st sid ↔ alookup x st.target_index = some sid := by
  unfold targetOfD
  cases hd : alookup sid st.slices with
  | none =>
    constructor
    · intro hx
      exact absurd hx (Finset.not_mem_empty x)
    · intro h
      obtain ⟨d2, hd2, _⟩ := hInv.dir1 x sid h
      rw [hd] at hd2
      cases hd2
  | some d =>
    constructor
    · exact hInv.dir2 sid d x hd
    · intro h
      obtain ⟨d2, hd2, hm⟩ := hInv.dir1 x sid h
      rw [hd] at hd2
      cases hd2
      exact hm

/-- C10: `get_config` lists, for each distinct slice reachable through
`target_index`, that slice's *full* target set (`get_tuples` reads
`target`, ignoring `known_ports` and `established`), and in reachable
states no listed set is empty: a slice with an empty target owns no index
entry and is simply not reported. -/
theorem C10_get_config_targets (st : SwitchState) (h : Reachable st) :
    st.get_config =
      ((st.target_index.map Prod.snd).dedup).map (targetOfD st) ∧
    (∀ c ∈ st.get_config, c.Nonempty) ∧
    (∀ (t : Tuple) (sid : ℕ), alookup t st.target_index = some sid →
      targetOfD st sid ∈ st.get_config ∧ t ∈ targetOfD st sid) := by
  have hInv := reachable_inv h
  refine ⟨rfl, ?_, ?_⟩
  · intro c hc
    obtain ⟨sid, hsid, rfl⟩ := List.mem_map.mp hc
    rw [List.mem_dedup] at hsid
    obtain ⟨q, hq, hq2⟩ := List.mem_map.mp hsid
    have hlk := alookup_eq_some_of_mem hInv.ndk hq
    rw [hq2] at hlk
    exact ⟨q.1, (mem_targetOfD_iff hInv sid q.1).mpr hlk⟩
  · intro t sid hlk
    constructor
    · refine List.mem_map.mpr ⟨sid, ?_, rfl⟩
      rw [List.mem_dedup]
      exact List.mem_map.mpr ⟨(t, sid), mem_of_alookup_eq_some hlk, rfl⟩
    · exact (mem_targetOfD_iff hInv sid t).mpr hlk

/-- Witness for C10 on the switch holding slices `{(1)}` and `{(2)}`. -/
theorem C10_get_config_targets_witness :
    ((SwitchState.init.create_slice {[1]}).2.create_slice {[2]}).2.get_config =
      (((((SwitchState.init.create_slice {[1]}).2.create_slice
            {[2]}).2.target_index.map Prod.snd).dedup).map
        (targetOfD ((SwitchState.init.create_slice {[1]}).2.create_slice
          {[2]}).2)) ∧
    (∀ c ∈ ((SwitchState.init.create_slice {[1]}).2.create_slice
        {[2]}).2.get_config, c.Nonempty) ∧
    (∀ (t : Tuple) (sid : ℕ),
      alookup t ((SwitchState.init.create_slice {[1]}).2.create_slice
        {[2]}).2.target_index = some sid →
      targetOfD ((SwitchState.init.create_slice {[1]}).2.create_slice
          {[2]}).2 sid ∈
        ((SwitchState.init.create_slice {[1]}).2.create_slice
          {[2]}).2.get_config ∧
      t ∈ targetOfD ((SwitchState.init.create_slice {[1]}).2.create_slice
        {[2]}).2 sid) :=
  C10_get_config_targets _
    (Reachable.create _ {[2]} (Reachable.create _ {[1]} Reachable.init))

/-! ### C9: create_slice / get_config round trip -/

theorem bestOf_some_slice {st : SwitchState} {T : Finset Tuple} {bsid : ℕ}
    (hInv : SliceInv st) (hb : (bestOf st T).1 = some bsid) :
    alookup bsid st.slices ≠ none := by
  have haux : ∀ (L : List Tuple) (acc : Option ℕ × ℕ),
      (∀ b, acc.1 = some b → alookup b st.slices ≠ none) →
      ∀ b, (L.foldl (bestStep st T) acc).1 = some b →
        alookup b st.slices ≠ none := by
    intro L
    induction L with
    | nil =>
      intro acc hacc b hb2
      exact hacc b hb2
    | cons x r ih =>
      intro acc hacc b hb2
      rw [List.foldl_cons] at hb2
      refine ih (bestStep st T acc x) ?_ b hb2
      intro b2 hb3
      unfold bestStep at hb3
      cases hlx : alookup x st.target_index with
      | none =>
        rw [hlx] at hb3
        exact hacc b2 hb3
      | some sid2 =>
        rw [hlx] at hb3
        dsimp only at hb3
        split_ifs at hb3 with hov
        · cases hb3
          obtain ⟨d, hd, _⟩ := hInv.dir1 x b2 hlx
          rw [hd]
          exact Option.some_ne_none d
        · exact hacc b2 hb3
  exact haux (tupsort T) (none, 0)
    (fun b hb2 => by cases hb2) bsid hb

theorem bestOf_empty_index {st : SwitchState} (T : Finset Tuple)
    (h : st.target_index = []) : (bestOf st T).1 = none := by
  unfold bestOf
  have hstep : ∀ (L : List Tuple) (acc : Option ℕ × ℕ),
      L.foldl (bestStep st T) acc = acc := by
    intro L
    induction L with
    | nil => intro acc; rfl
    | cons x r ih =>
      intro acc
      rw [List.foldl_cons]
      have hx : bestStep st T acc x = acc := by
        unfold bestStep
        rw [h]
        rfl
      rw [hx, ih acc]
  rw [hstep]

theorem dedup_const {l : List ℕ} {a : ℕ} (h : ∀ x ∈ l, x = a)
    (hne : l ≠ []) : l.dedup = [a] := by
  induction l with
  | nil => exact absurd rfl hne
  | cons b r ih =>
    have hb : b = a := h b (List.mem_cons_self b r)
    subst hb
    cases hr : r with
    | nil =>
      subst hr
      simp
    | cons c r2 =>
      subst hr
      have hc : c = b :=
        h c (List.mem_cons_of_mem b (List.mem_cons_self c r2))
      have hmem : b ∈ c :: r2 := by
        rw [← hc]
        exact List.mem_cons_self c r2
      rw [List.dedup_cons_of_mem hmem]
      exact ih (fun x hx => h x (List.mem_cons_of_mem b hx))
        (List.cons_ne_nil c r2)

theorem config_unique_of_owner {st : SwitchState} (hInv : SliceInv st)
    {t : Tuple} {sid : ℕ} (h : alookup t st.target_index = some sid) :
    targetOfD st sid ∈ st.get_config ∧ t ∈ targetOfD st sid ∧
    ∀ c ∈ st.get_config, t ∈ c → c = targetOfD st sid := by
  refine ⟨?_, (mem_targetOfD_iff hInv sid t).mpr h, ?_⟩
  · exact List.mem_map.mpr ⟨sid,
      List.mem_dedup.mpr (List.mem_map.mpr
        ⟨(t, sid), mem_of_alookup_eq_some h, rfl⟩), rfl⟩
  · intro c hc htc
    obtain ⟨s2, _, rfl⟩ := List.mem_map.mp hc
    have h2 := (mem_targetOfD_iff hInv s2 t).mp htc
    rw [h] at h2
    cases h2
    rfl

theorem C9_host_case (st st1 st3 : SwitchState) (T : Finset Tuple)
    (bsid fid : ℕ) (L1 L2 : List Tuple)
    (hInv : SliceInv st)
    (hex : alookup bsid st.slices ≠ none)
    (hpair : ∀ a ∈ T, ∀ b ∈ T, a ≠ b → tuples_conflict a b = false)
    (hL1 : L1 = tupsort (T \ targetOfD st bsid))
    (hst1 : st1 = adoptAll bsid L1 st)
    (hfid : fid = st1.next_id)
    (hL2 : L2 = tupsort (targetOfD st1 bsid \ T))
    (hst3 : st3 = adoptAll fid L2 (addFreshSlice st1)) :
    (∀ t ∈ T, alookup t st3.target_index = some bsid) ∧
    (∃ f2, f2 ≠ bsid ∧ ∀ o ∈ targetOfD st bsid, o ∉ T →
      (∀ t ∈ T, tuples_conflict t o = false) →
      alookup o st3.target_index = some f2) ∧
    SliceInv st3 := by
  have hNd1 : L1.Nodup := by rw [hL1]; exact tupsort_nodup _
  have hL1mem : ∀ x, x ∈ L1 ↔ (x ∈ T ∧ x ∉ targetOfD st bsid) := by
    intro x
    rw [hL1, mem_tupsort, Finset.mem_sdiff]
  have hL1T : ∀ x ∈ L1, x ∈ T := fun x hx => ((hL1mem x).mp hx).1
  have hpair1 : ∀ a ∈ L1, ∀ b ∈ L1, a ≠ b → tuples_conflict a b = false :=
    fun a ha b hb => hpair a (hL1T a ha) b (hL1T b hb)
  obtain ⟨aInv, asl, aaux, amem, apres, anone⟩ :=
    adoptAll_facts L1 st bsid hInv hex hNd1 hpair1
  rw [← hst1] at aInv asl aaux amem apres anone
  have hownsT1 : ∀ t ∈ T, alookup t st1.target_index = some bsid := by
    intro t ht
    by_cases hL : t ∈ L1
    · exact amem t hL
    · have htt : t ∈ targetOfD st bsid := by
        by_contra hc
        exact hL ((hL1mem t).mpr ⟨ht, hc⟩)
      have hnc : ∀ a ∈ L1, tuples_conflict a t = false := by
        intro a ha
        have hat : a ≠ t := by
          intro hc
          exact ((hL1mem a).mp ha).2 (hc ▸ htt)
        exact hpair a (hL1T a ha) t ht hat
      rw [apres t hL hnc]
      exact (mem_targetOfD_iff hInv bsid t).mp htt
  have h2Inv : SliceInv (addFreshSlice st1) := addFreshSlice_inv aInv
  have h2sl : alookup fid (addFreshSlice st1).slices ≠ none := by
    rw [hfid]
    show alookup st1.next_id (ainsert st1.next_id ⟨∅, ∅, ∅⟩ st1.slices) ≠ none
    rw [alookup_ainsert_self]
    exact Option.some_ne_none _
  have hNd2 : L2.Nodup := by rw [hL2]; exact tupsort_nodup _
  have hL2mem : ∀ x, x ∈ L2 ↔ (x ∈ targetOfD st1 bsid ∧ x ∉ T) := by
    intro x
    rw [hL2, mem_tupsort, Finset.mem_sdiff]
  have hownsL2 : ∀ o ∈ L2, alookup o st1.target_index = some bsid :=
    fun o ho => (mem_targetOfD_iff aInv bsid o).mp ((hL2mem o).mp ho).1
  have hpair2 : ∀ a ∈ L2, ∀ b ∈ L2, a ≠ b → tuples_conflict a b = false := by
    intro a ha b hb hne
    exact aInv.uniq a b (by rw [hownsL2 a ha]; exact Option.some_ne_none _)
      (by rw [hownsL2 b hb]; exact Option.some_ne_none _) hne
  obtain ⟨bInv, bsl, baux, bmem, bpres, bnone⟩ :=
    adoptAll_facts L2 (addFreshSlice st1) fid h2Inv h2sl hNd2 hpair2
  rw [← hst3] at bInv bsl baux bmem bpres bnone
  refine ⟨?_, ?_, bInv⟩
  · intro t ht
    have htL2 : t ∉ L2 := fun hc => ((hL2mem t).mp hc).2 ht
    have hnc : ∀ a ∈ L2, tuples_conflict a t = false := by
      intro a ha
      have hat : a ≠ t := fun hc => ((hL2mem a).mp ha).2 (hc ▸ ht)
      exact aInv.uniq a t
        (by rw [hownsL2 a ha]; exact Option.some_ne_none _)
        (by rw [hownsT1 t ht]; exact Option.some_ne_none _) hat
    rw [bpres t htL2 hnc]
    exact hownsT1 t ht
  · refine ⟨fid, ?_, ?_⟩
    · have hlt := hInv.fresh bsid hex
      have hnid : st1.next_id = st.next_id := aaux.2.1
      rw [hfid, hnid]
      omega
    · intro o ho hoT hnoc
      have hoL1 : o ∉ L1 := fun hc => hoT (hL1T o hc)
      have hnc1 : ∀ a ∈ L1, tuples_conflict a o = false :=
        fun a ha => hnoc a (hL1T a ha)
      have ho1 : alookup o st1.target_index = some bsid := by
        rw [apres o hoL1 hnc1]
        exact (mem_targetOfD_iff hInv bsid o).mp ho
      have hoT1 : o ∈ targetOfD st1 bsid :=
        (mem_targetOfD_iff aInv bsid o).mpr ho1
      exact bmem o ((hL2mem o).mpr ⟨hoT1, hoT⟩)

theorem C9_fresh_case (st st3 : SwitchState) (T : Finset Tuple)
    (L : List Tuple)
    (hInv : SliceInv st)
    (hpair : ∀ a ∈ T, ∀ b ∈ T, a ≠ b → tuples_conflict a b = false)
    (hL : L = tupsort T)
    (hst3 : st3 = adoptAll st.next_id L (addFreshSlice st)) :
    (∀ t ∈ T, alookup t st3.target_index = some st.next_id) ∧
    (st.target_index = [] → T.Nonempty → st3.get_config = [T]) ∧
    SliceInv st3 := by
  have hNd : L.Nodup := by rw [hL]; exact tupsort_nodup _
  have hLmem : ∀ x, x ∈ L ↔ x ∈ T := by
    intro x
    rw [hL, mem_tupsort]
  have hpairL : ∀ a ∈ L, ∀ b ∈ L, a ≠ b → tuples_conflict a b = false :=
    fun a ha b hb => hpair a ((hLmem a).mp ha) b ((hLmem b).mp hb)
  have h2Inv : SliceInv (addFreshSlice st) := addFreshSlice_inv hInv
  have h2sl : alookup st.next_id (addFreshSlice st).slices ≠ none := by
    show alookup st.next_id (ainsert st.next_id ⟨∅, ∅, ∅⟩ st.slices) ≠ none
    rw [alookup_ainsert_self]
    exact Option.some_ne_none _
  obtain ⟨bInv, bsl, baux, bmem, bpres, bnone⟩ :=
    adoptAll_facts L (addFreshSlice st) st.next_id h2Inv h2sl hNd hpairL
  rw [← hst3] at bInv bsl baux bmem bpres bnone
  refine ⟨?_, ?_, bInv⟩
  · intro t ht
    exact bmem t ((hLmem t).mpr ht)
  · intro hidx hTne
    have hownsiff : ∀ x s, alookup x st3.target_index = some s →
        (x ∈ T ∧ s = st.next_id) := by
      intro x s hx
      by_cases hxL : x ∈ L
      · rw [bmem x hxL] at hx
        exact ⟨(hLmem x).mp hxL, (Option.some_injective _ hx).symm⟩
      · rcases bnone x hxL with h | h
        · rw [h] at hx
          cases hx
        · rw [h] at hx
          have hx2 : alookup x st.target_index = some s := hx
          rw [hidx] at hx2
          cases hx2
    obtain ⟨t0, ht0⟩ := hTne
    have ht0own : alookup t0 st3.target_index = some st.next_id :=
      bmem t0 ((hLmem t0).mpr ht0)
    have hsnd : ∀ s ∈ st3.target_index.map Prod.snd, s = st.next_id := by
      intro s hs
      obtain ⟨q, hq, hq2⟩ := List.mem_map.mp hs
      have hlk := alookup_eq_some_of_mem bInv.ndk hq
      rw [hq2] at hlk
      exact (hownsiff q.1 s hlk).2
    have hne : st3.target_index.map Prod.snd ≠ [] := by
      intro hc
      have hm : st.next_id ∈ st3.target_index.map Prod.snd :=
        List.mem_map.mpr ⟨(t0, st.next_id), mem_of_alookup_eq_some ht0own, rfl⟩
      rw [hc] at hm
      cases hm
    have hded : (st3.target_index.map Prod.snd).dedup = [st.next_id] :=
      dedup_const hsnd hne
    have htg : targetOfD st3 st.next_id = T := by
      ext x
      rw [mem_targetOfD_iff bInv]
      constructor
      · intro hx
        exact (hownsiff x st.next_id hx).1
      · intro hx
        exact bmem x ((hLmem x).mpr hx)
    show st3.get_config = [T]
    unfold SwitchState.get_config
    rw [hded]
    simp [htg]

/-- C9 (amended): for a valid request `T` accepted by `create_slice`,
every tuple of `T` ends up owned by the returned slice and appears in
exactly one listed slice of `get_config`; when `target_index` was empty
beforehand the configuration is exactly `[T]`; and the host slice's prior
tuples that are not in `T` *and conflict with no tuple of `T`* reappear
together in a separate fresh slice (tuples conflicting with a newly
adopted tuple are abandoned outright, not split off). -/
theorem C9_create_slice_roundtrip (st : SwitchState) (T : Finset Tuple)
    (hR : Reachable st) (sid : ℕ) (st' : SwitchState)
    (hcs : st.create_slice T = (some sid, st')) :
    (∀ t ∈ T, alookup t st'.target_index = some sid) ∧
    (∀ t ∈ T, targetOfD st' sid ∈ st'.get_config ∧ t ∈ targetOfD st' sid ∧
      ∀ c ∈ st'.get_config, t ∈ c → c = targetOfD st' sid) ∧
    (st.target_index = [] → st'.get_config = [T]) ∧
    (∃ fid, fid ≠ sid ∧ ∀ o ∈ targetOfD st sid, o ∉ T →
      (∀ t ∈ T, tuples_conflict t o = false) →
      alookup o st'.target_index = some fid) := by
  have hInv := reachable_inv hR
  have hInv' : SliceInv st' := by
    have h := create_slice_inv T hInv
    rw [hcs] at h
    exact h
  unfold SwitchState.create_slice at hcs
  by_cases h1 : T.card = 0
  · rw [if_pos h1] at hcs
    simp at hcs
  rw [if_neg h1] at hcs
  by_cases h2 : ¬ ∀ t ∈ T, tuple_ok t = true
  · rw [if_pos h2] at hcs
    simp at hcs
  rw [if_neg h2] at hcs
  by_cases h3 : ∃ t ∈ T, ∃ u ∈ T, t ≠ u ∧ tuples_conflict t u = true
  · rw [if_pos h3] at hcs
    simp at hcs
  rw [if_neg h3] at hcs
  have hpair : ∀ a ∈ T, ∀ b ∈ T, a ≠ b → tuples_conflict a b = false := by
    intro a ha b hb hne
    cases hc : tuples_conflict a b
    · rfl
    · exact absurd ⟨a, ha, b, hb, hne, hc⟩ h3
  have hTne : T.Nonempty := Finset.card_pos.mp (Nat.pos_of_ne_zero h1)
  cases hb : (bestOf st T).1 with
  | some bsid =>
    rw [hb] at hcs
    dsimp only at hcs
    rw [Prod.mk.injEq] at hcs
    obtain ⟨hsid, hst⟩ := hcs
    have hbs : bsid = sid := Option.some_injective _ hsid
    have hex := bestOf_some_slice hInv hb
    obtain ⟨ca, cd, cInv⟩ := C9_host_case st
      (adoptAll bsid (tupsort (T \ targetOfD st bsid)) st) st' T bsid
      (adoptAll bsid (tupsort (T \ targetOfD st bsid)) st).next_id
      (tupsort (T \ targetOfD st bsid))
      (tupsort (targetOfD
        (adoptAll bsid (tupsort (T \ targetOfD st bsid)) st) bsid \ T))
      hInv hex hpair rfl rfl rfl rfl hst.symm
    refine ⟨?_, ?_, ?_, ?_⟩
    · intro t ht
      rw [← hbs]
      exact ca t ht
    · intro t ht
      have h := ca t ht
      rw [hbs] at h
      exact config_unique_of_owner hInv' h
    · intro hidx
      have hnone := bestOf_empty_index T hidx
      rw [hnone] at hb
      cases hb
    · obtain ⟨f2, hf2ne, hf2⟩ := cd
      refine ⟨f2, ?_, ?_⟩
      · rw [← hbs]
        exact hf2ne
      · intro o ho hoT hnoc
        rw [← hbs] at ho
        exact hf2 o ho hoT hnoc
  | none =>
    rw [hb] at hcs
    dsimp only at hcs
    rw [Prod.mk.injEq] at hcs
    obtain ⟨hsid, hst⟩ := hcs
    have hbs : st.next_id = sid := Option.some_injective _ hsid
    obtain ⟨ca, cb, cInv⟩ :=
      C9_fresh_case st st' T (tupsort T) hInv hpair rfl hst.symm
    refine ⟨?_, ?_, ?_, ?_⟩
    · intro t ht
      rw [← hbs]
      exact ca t ht
    · intro t ht
      have h := ca t ht
      rw [hbs] at h
      exact config_unique_of_owner hInv' h
    · intro hidx
      exact cb hidx hTne
    · refine ⟨sid + 1, by omega, ?_⟩
      intro o ho hoT hnoc
      exfalso
      have hempty : targetOfD st sid = ∅ := by
        unfold targetOfD
        rw [← hbs, fresh_unlisted hInv]
      rw [hempty] at ho
      exact absurd ho (Finset.not_mem_empty o)

/-- State after creating a first slice for `{(1,100), (2)}` on a fresh switch. -/
def c9_s0 : SwitchState := (SwitchState.init.create_slice {[1, 100], [2]}).2

/-- State after then requesting `{(1,100,200), (2)}`, which overlaps slice 0. -/
def c9_s1 : SwitchState := (c9_s0.create_slice {[1, 100, 200], [2]}).2

/-- C9 counterexample to the literal claim: `(1,100)` belongs to slice 0, the
request `{(1,100,200), (2)}` is accepted into that same slice, `(1,100)` is
not in the request, yet after the call `(1,100)` appears in **no** listed
slice of `get_config` — it conflicts with the newly adopted `(1,100,200)`
and is abandoned outright rather than split off into a separate slice. -/
theorem C9_create_slice_roundtrip_counterexample :
    (SwitchState.init.create_slice {[1, 100], [2]}).1 = some 0 ∧
    ([1, 100] : Tuple) ∈ targetOfD c9_s0 0 ∧
    (c9_s0.create_slice {[1, 100, 200], [2]}).1 = some 0 ∧
    ([1, 100] : Tuple) ∉ ({[1, 100, 200], [2]} : Finset Tuple) ∧
    ∀ c ∈ c9_s1.get_config, ([1, 100] : Tuple) ∉ c := by
  decide

theorem C9_create_slice_roundtrip_witness :
    ([2] : Tuple) ∈ ({[1, 100, 200], [2]} : Finset Tuple) ∧
    alookup ([2] : Tuple)
      ((c9_s0.create_slice {[1, 100, 200], [2]}).2).target_index = some 0 :=
  ⟨by decide,
   (C9_create_slice_roundtrip c9_s0 {[1, 100, 200], [2]}
      (Reachable.create _ {[1, 100], [2]} Reachable.init) 0
      (c9_s0.create_slice {[1, 100, 200], [2]}).2 (by decide)).1
     [2] (by decide)⟩

/-! ### C7: the revalidate postcondition -/

theorem natsort_coe (s : Finset ℕ) :
    ((natsort s : List ℕ) : Multiset ℕ) = s.val :=
  bsortFinset_perm _ _ _ _ s

theorem mem_natsort {s : Finset ℕ} {x : ℕ} : x ∈ natsort s ↔ x ∈ s := by
  rw [← Multiset.mem_coe, natsort_coe]
  exact Iff.symm Finset.mem_def

theorem natsort_nodup (s : Finset ℕ) : (natsort s).Nodup := by
  have h : ((natsort s : List ℕ) : Multiset ℕ).Nodup := by
    rw [natsort_coe]
    exact s.nodup
  exact Multiset.coe_nodup.mp h

theorem iftr_fields (st : SwitchState) (tup : Tuple) :
    (st.invalidate_first_tag_rule tup).slices = st.slices ∧
    (st.invalidate_first_tag_rule tup).known_ports = st.known_ports := by
  unfold SwitchState.invalidate_first_tag_rule
  split
  · exact ⟨rfl, rfl⟩
  · exact ⟨rfl, rfl⟩

theorem release_tuple_fields (st : SwitchState) (tup : Tuple) :
    ((st.release_tuple tup).2).slices = st.slices ∧
    ((st.release_tuple tup).2).known_ports = st.known_ports := by
  unfold SwitchState.release_tuple
  cases h : alookup tup st.tuple_to_group
  · exact ⟨rfl, rfl⟩
  · exact ⟨rfl, rfl⟩

theorem claim_group_fields (st : SwitchState) (tup : Tuple) (g : ℕ) (a : Bool)
    (s1 : SwitchState) (h : st.claim_group_for_tuple tup = some (g, a, s1)) :
    s1.slices = st.slices ∧ s1.known_ports = st.known_ports := by
  unfold SwitchState.claim_group_for_tuple at h
  cases hl : alookup tup st.tuple_to_group
  · rw [hl] at h
    dsimp only at h
    by_cases hne : st.free_groups.Nonempty
    · rw [dif_pos hne] at h
      rw [Option.some.injEq, Prod.mk.injEq, Prod.mk.injEq] at h
      obtain ⟨-, -, hs⟩ := h
      rw [← hs]
      exact ⟨rfl, rfl⟩
    · rw [dif_neg hne] at h
      cases h
  · rw [hl] at h
    dsimp only at h
    rw [Option.some.injEq, Prod.mk.injEq, Prod.mk.injEq] at h
    obtain ⟨-, -, hs⟩ := h
    rw [← hs]
    exact ⟨rfl, rfl⟩

theorem ddr_fields (st : SwitchState) (tup : Tuple) :
    ((st.delete_dynamic_rules tup).1).slices = st.slices ∧
    ((st.delete_dynamic_rules tup).1).known_ports = st.known_ports := by
  unfold SwitchState.delete_dynamic_rules
  dsimp only
  obtain ⟨hs, hk⟩ := iftr_fields st tup
  obtain ⟨hs2, hk2⟩ := release_tuple_fields (st.invalidate_first_tag_rule tup) tup
  cases hr : ((st.invalidate_first_tag_rule tup).release_tuple tup).1
  · exact ⟨hs2.trans hs, hk2.trans hk⟩
  · exact ⟨hs2.trans hs, hk2.trans hk⟩

theorem ddrPass_fields : ∀ (L : List Tuple) (st : SwitchState),
    ((ddrPass st L).1).slices = st.slices ∧
    ((ddrPass st L).1).known_ports = st.known_ports := by
  intro L
  induction L with
  | nil => intro st; exact ⟨rfl, rfl⟩
  | cons t r ih =>
    intro st
    obtain ⟨h1, h2⟩ := ih (st.delete_dynamic_rules t).1
    obtain ⟨g1, g2⟩ := ddr_fields st t
    exact ⟨h1.trans g1, h2.trans g2⟩

theorem sanitize_known_ports (st : SwitchState) (i : ℕ) :
    (st.sanitize i).known_ports = st.known_ports := by
  unfold SwitchState.sanitize
  cases h : alookup i st.slices
  · rfl
  · rfl

theorem sanitize_lookup_ne (st : SwitchState) {sid i : ℕ} (h : sid ≠ i) :
    alookup sid (st.sanitize i).slices = alookup sid st.slices := by
  unfold SwitchState.sanitize
  cases hl : alookup i st.slices
  · rfl
  · dsimp only
    exact alookup_ainsert_ne _ _ (fun hc => h hc.symm)

theorem sanitize_lookup_self (st : SwitchState) (i : ℕ) (d : SliceData)
    (h : alookup i st.slices = some d) :
    alookup i (st.sanitize i).slices =
      some { d with
        sanitized := d.target.filter (fun t => t.getD 0 0 ∈ st.known_ports) } := by
  unfold SwitchState.sanitize
  rw [h]
  dsimp only
  exact alookup_ainsert_self _ _ _

theorem sanPass_known_ports : ∀ (L : List ℕ) (st : SwitchState),
    (sanPass st L).known_ports = st.known_ports := by
  intro L
  induction L with
  | nil => intro st; rfl
  | cons i r ih =>
    intro st
    exact (ih (st.sanitize i)).trans (sanitize_known_ports st i)

theorem sanPass_lookup_not_mem : ∀ (L : List ℕ) (st : SwitchState) (sid : ℕ),
    sid ∉ L → alookup sid (sanPass st L).slices = alookup sid st.slices := by
  intro L
  induction L with
  | nil => intro st sid _; rfl
  | cons i r ih =>
    intro st sid hm
    rw [List.mem_cons] at hm
    push_neg at hm
    exact (ih (st.sanitize i) sid hm.2).trans (sanitize_lookup_ne st hm.1)

theorem sanPass_lookup_mem : ∀ (L : List ℕ) (st : SwitchState) (sid : ℕ)
    (d : SliceData), L.Nodup → sid ∈ L → alookup sid st.slices = some d →
    alookup sid (sanPass st L).slices =
      some { d with
        sanitized := d.target.filter (fun t => t.getD 0 0 ∈ st.known_ports) } := by
  intro L
  induction L with
  | nil => intro st sid d _ hm; cases hm
  | cons i r ih =>
    intro st sid d hN hm hd
    rw [List.nodup_cons] at hN
    rcases List.mem_cons.mp hm with he | hr2
    · subst he
      show alookup sid (sanPass (st.sanitize sid) r).slices = _
      rw [sanPass_lookup_not_mem r _ sid hN.1]
      exact sanitize_lookup_self st sid d hd
    · have hne : sid ≠ i := fun hc => hN.1 (hc ▸ hr2)
      have hd2 : alookup sid (st.sanitize i).slices = some d := by
        rw [sanitize_lookup_ne st hne]
        exact hd
      have hmain := ih (st.sanitize i) sid d hN.2 hr2 hd2
      simp only [sanitize_known_ports] at hmain
      exact hmain

theorem dsrDelLoop_fields : ∀ (L : List Tuple) (p : SwitchState × List Msg),
    ((dsrDelLoop p L).1).slices = (p.1).slices ∧
    ((dsrDelLoop p L).1).known_ports = (p.1).known_ports := by
  intro L
  induction L with
  | nil => intro p; exact ⟨rfl, rfl⟩
  | cons t r ih =>
    intro p
    obtain ⟨g1, g2⟩ := iftr_fields p.1 t
    obtain ⟨h1, h2⟩ := ih
      (p.1.invalidate_first_tag_rule t,
       p.2 ++ [match alookup t (p.1.invalidate_first_tag_rule t).tuple_to_group with
         | none => Msg.flowDelete 0 0 (tuple_match t none).2.1 (tuple_match t none).1 OFPP_ANY
         | some g =>
           Msg.flowDelete g 0xffffffffffffffff (tuple_match t none).2.1
             (tuple_match t none).1 OFPP_CONTROLLER])
    exact ⟨h1.trans g1, h2.trans g2⟩

theorem dsrRelLoop_fields : ∀ (L : List Tuple) (p : SwitchState × List Msg),
    ((dsrRelLoop p L).1).slices = (p.1).slices ∧
    ((dsrRelLoop p L).1).known_ports = (p.1).known_ports := by
  intro L
  induction L with
  | nil => intro p; exact ⟨rfl, rfl⟩
  | cons t r ih =>
    intro p
    obtain ⟨g1, g2⟩ := release_tuple_fields p.1 t
    show ((dsrRelLoop p (t :: r)).1).slices = (p.1).slices ∧
      ((dsrRelLoop p (t :: r)).1).known_ports = (p.1).known_ports
    unfold dsrRelLoop
    dsimp only
    cases hr : ((p.1).release_tuple t).1
    · dsimp only
      obtain ⟨h1, h2⟩ := ih (((p.1).release_tuple t).2, p.2)
      exact ⟨h1.trans g1, h2.trans g2⟩
    · dsimp only
      obtain ⟨h1, h2⟩ := ih (((p.1).release_tuple t).2, _)
      exact ⟨h1.trans g1, h2.trans g2⟩

theorem dsr_fields (st : SwitchState) (sid : ℕ) :
    ((st.delete_static_rules sid).1).slices = st.slices ∧
    ((st.delete_static_rules sid).1).known_ports = st.known_ports := by
  unfold SwitchState.delete_static_rules
  cases hl : alookup sid st.slices
  · exact ⟨rfl, rfl⟩
  case some d =>
    dsimp only
    by_cases h1 : d.sanitized = d.established
    · rw [if_pos h1]
      exact ⟨rfl, rfl⟩
    · rw [if_neg h1]
      obtain ⟨a1, a2⟩ := dsrDelLoop_fields
        (tupsort (oldtups_of d.established d.sanitized)) (st, [])
      by_cases h2 : d.sanitized.card ≤ 2 ∧ d.established.card > 2
      · rw [if_pos h2]
        obtain ⟨b1, b2⟩ := dsrRelLoop_fields
          (tupsort (oldtups_of d.established d.sanitized))
          (dsrDelLoop (st, []) (tupsort (oldtups_of d.established d.sanitized)))
        exact ⟨b1.trans a1, b2.trans a2⟩
      · rw [if_neg h2]
        exact ⟨a1, a2⟩

theorem delPass_fields : ∀ (L : List ℕ) (st : SwitchState),
    ((delPass st L).1).slices = st.slices ∧
    ((delPass st L).1).known_ports = st.known_ports := by
  intro L
  induction L with
  | nil => intro st; exact ⟨rfl, rfl⟩
  | cons i r ih =>
    intro st
    obtain ⟨g1, g2⟩ := dsr_fields st i
    obtain ⟨h1, h2⟩ := ih (st.delete_static_rules i).1
    exact ⟨h1.trans g1, h2.trans g2⟩

theorem groupLoop_fields (san : Finset Tuple) :
    ∀ (L : List Tuple) (st : SwitchState) (g : ℕ) (m : List Msg)
      (s1 : SwitchState) (m1 : List Msg) (g1 : ℕ),
      groupLoop san st L g m = some (s1, m1, g1) →
      s1.slices = st.slices ∧ s1.known_ports = st.known_ports := by
  intro L
  induction L with
  | nil =>
    intro st g m s1 m1 g1 h
    unfold groupLoop at h
    rw [Option.some.injEq, Prod.mk.injEq] at h
    rw [← h.1]
    exact ⟨rfl, rfl⟩
  | cons t r ih =>
    intro st g m s1 m1 g1 h
    unfold groupLoop at h
    cases hc : st.claim_group_for_tuple t
    · rw [hc] at h
      cases h
    case some q =>
      obtain ⟨g2, added, stA⟩ := q
      rw [hc] at h
      dsimp only at h
      obtain ⟨h1, h2⟩ := ih stA g2 _ s1 m1 g1 h
      obtain ⟨k1, k2⟩ := claim_group_fields st t g2 added stA hc
      exact ⟨h1.trans k1, h2.trans k2⟩

theorem asr_fields (st : SwitchState) (sid : ℕ) (s1 : SwitchState)
    (m : List Msg) (h : st.add_static_rules sid = some (s1, m)) :
    s1.slices = st.slices ∧ s1.known_ports = st.known_ports := by
  unfold SwitchState.add_static_rules at h
  cases hl : alookup sid st.slices
  · rw [hl] at h
    dsimp only at h
    rw [Option.some.injEq, Prod.mk.injEq] at h
    rw [← h.1]
    exact ⟨rfl, rfl⟩
  case some d =>
    rw [hl] at h
    dsimp only at h
    by_cases h1 : d.sanitized = d.established
    · rw [if_pos h1] at h
      rw [Option.some.injEq, Prod.mk.injEq] at h
      rw [← h.1]
      exact ⟨rfl, rfl⟩
    rw [if_neg h1] at h
    by_cases h2 : d.sanitized.card < 2
    · rw [if_pos h2] at h
      rw [Option.some.injEq, Prod.mk.injEq] at h
      rw [← h.1]
      exact ⟨rfl, rfl⟩
    rw [if_neg h2] at h
    by_cases h3 : d.sanitized.card = 2
    · rw [if_pos h3] at h
      rw [Option.some.injEq, Prod.mk.injEq] at h
      rw [← h.1]
      exact ⟨rfl, rfl⟩
    rw [if_neg h3] at h
    cases hg : groupLoop d.sanitized st (tupsort d.sanitized) 0 []
    · rw [hg] at h
      cases h
    next q =>
      obtain ⟨stg, mg, lg⟩ := q
      rw [hg] at h
      dsimp only at h
      rw [Option.some.injEq, Prod.mk.injEq] at h
      rw [← h.1]
      exact groupLoop_fields d.sanitized (tupsort d.sanitized) st 0 [] stg mg lg hg

theorem addPass_fields : ∀ (L : List ℕ) (st : SwitchState) (s1 : SwitchState)
    (m : List Msg), addPass st L = some (s1, m) →
    s1.slices = st.slices ∧ s1.known_ports = st.known_ports := by
  intro L
  induction L with
  | nil =>
    intro st s1 m h
    unfold addPass at h
    rw [Option.some.injEq, Prod.mk.injEq] at h
    rw [← h.1]
    exact ⟨rfl, rfl⟩
  | cons i r ih =>
    intro st s1 m h
    unfold addPass at h
    cases ha : st.add_static_rules i
    · rw [ha] at h
      cases h
    case some q =>
      obtain ⟨stA, mA⟩ := q
      rw [ha] at h
      dsimp only at h
      cases hb : addPass stA r
      · rw [hb] at h
        cases h
      case some q2 =>
        obtain ⟨stB, mB⟩ := q2
        rw [hb] at h
        dsimp only at h
        rw [Option.some.injEq, Prod.mk.injEq] at h
        obtain ⟨k1, k2⟩ := asr_fields st i stA mA ha
        obtain ⟨l1, l2⟩ := ih stA stB mB hb
        rw [← h.1]
        exact ⟨l1.trans k1, l2.trans k2⟩

theorem slice_match_lookup_ne (st : SwitchState) {sid i : ℕ} (h : sid ≠ i) :
    alookup sid (st.slice_match i).slices = alookup sid st.slices := by
  unfold SwitchState.slice_match
  cases hl : alookup i st.slices
  · rfl
  · dsimp only
    exact alookup_ainsert_ne _ _ (fun hc => h hc.symm)

theorem slice_match_lookup_self (st : SwitchState) (i : ℕ) (d : SliceData)
    (h : alookup i st.slices = some d) :
    alookup i (st.slice_match i).slices =
      some { d with established := d.sanitized } := by
  unfold SwitchState.slice_match
  rw [h]
  dsimp only
  exact alookup_ainsert_self _ _ _

theorem matchPass_lookup_not_mem : ∀ (L : List ℕ) (st : SwitchState) (sid : ℕ),
    sid ∉ L → alookup sid (matchPass st L).slices = alookup sid st.slices := by
  intro L
  induction L with
  | nil => intro st sid _; rfl
  | cons i r ih =>
    intro st sid hm
    rw [List.mem_cons] at hm
    push_neg at hm
    exact (ih (st.slice_match i) sid hm.2).trans (slice_match_lookup_ne st hm.1)

theorem matchPass_lookup_mem : ∀ (L : List ℕ) (st : SwitchState) (sid : ℕ)
    (d : SliceData), L.Nodup → sid ∈ L → alookup sid st.slices = some d →
    alookup sid (matchPass st L).slices =
      some { d with established := d.sanitized } := by
  intro L
  induction L with
  | nil => intro st sid d _ hm; cases hm
  | cons i r ih =>
    intro st sid d hN hm hd
    rw [List.nodup_cons] at hN
    rcases List.mem_cons.mp hm with he | hr2
    · subst he
      show alookup sid (matchPass (st.slice_match sid) r).slices = _
      rw [matchPass_lookup_not_mem r _ sid hN.1]
      exact slice_match_lookup_self st sid d hd
    · have hne : sid ≠ i := fun hc => hN.1 (hc ▸ hr2)
      have hd2 : alookup sid (st.slice_match i).slices = some d := by
        rw [slice_match_lookup_ne st hne]
        exact hd
      exact ih (st.slice_match i) sid d hN.2 hr2 hd2

theorem revalidate_success (st : SwitchState) (hdp : st.datapath = true)
    {st' : SwitchState} {msgs : List Msg}
    (hrev : st.revalidate = some (st', msgs)) :
    ∃ st4 m4,
      addPass (delPass (sanPass (ddrPass st (tupsort (revTTR st))).1
          (natsort st.invalid_slices)) (natsort st.invalid_slices)).1
        (natsort st.invalid_slices) = some (st4, m4) ∧
      st' = { matchPass st4 (natsort st.invalid_slices) with
                invalid_slices := ∅, invalid_first_tag_rules := ∅ } := by
  unfold SwitchState.revalidate at hrev
  rw [hdp, if_neg (by decide : ¬ (true = false))] at hrev
  dsimp only at hrev
  cases hadd : addPass (delPass (sanPass (ddrPass st (tupsort (revTTR st))).1
      (natsort st.invalid_slices)) (natsort st.invalid_slices)).1
    (natsort st.invalid_slices)
  · rw [hadd] at hrev
    exact Option.noConfusion hrev
  next q =>
    obtain ⟨st4, m4⟩ := q
    rw [hadd] at hrev
    dsimp only at hrev
    rw [Option.some.injEq, Prod.mk.injEq] at hrev
    exact ⟨st4, m4, rfl, hrev.1.symm⟩

/-- C7: with a datapath present, whenever `revalidate()` returns normally,
every slice that was marked invalid ends with `established = sanitized`,
where `sanitized` is the set of target tuples whose port is known, and
both `invalid_slices` and `invalid_first_tag_rules` are empty. -/
theorem C7_revalidate_postcondition (st : SwitchState)
    (hdp : st.datapath = true) (st' : SwitchState) (msgs : List Msg)
    (hrev : st.revalidate = some (st', msgs)) :
    st'.invalid_slices = ∅ ∧ st'.invalid_first_tag_rules = ∅ ∧
    ∀ sid ∈ st.invalid_slices, ∀ d, alookup sid st.slices = some d →
      ∃ d', alookup sid st'.slices = some d' ∧
        d'.target = d.target ∧
        d'.sanitized = d.target.filter (fun t => t.getD 0 0 ∈ st.known_ports) ∧
        d'.established = d'.sanitized := by
  obtain ⟨st4, m4, hadd, hst'⟩ := revalidate_success st hdp hrev
  refine ⟨by rw [hst'], by rw [hst'], ?_⟩
  intro sid hm d hd
  have hmL : sid ∈ natsort st.invalid_slices := mem_natsort.mpr hm
  have hNd := natsort_nodup st.invalid_slices
  obtain ⟨dps, dpk⟩ := ddrPass_fields (tupsort (revTTR st)) st
  have hd1 : alookup sid ((ddrPass st (tupsort (revTTR st))).1).slices =
      some d := by
    rw [dps]
    exact hd
  have hd2 := sanPass_lookup_mem (natsort st.invalid_slices) _ sid d hNd hmL hd1
  simp only [dpk] at hd2
  obtain ⟨dls, -⟩ := delPass_fields (natsort st.invalid_slices)
    (sanPass ((ddrPass st (tupsort (revTTR st))).1) (natsort st.invalid_slices))
  obtain ⟨aps, -⟩ := addPass_fields (natsort st.invalid_slices) _ st4 m4 hadd
  have hd3 : alookup sid st4.slices =
      some { d with
        sanitized := d.target.filter (fun t => t.getD 0 0 ∈ st.known_ports) } := by
    rw [aps, dls]
    exact hd2
  have hd4 := matchPass_lookup_mem (natsort st.invalid_slices) st4 sid _ hNd hmL hd3
  refine ⟨{ d with
      sanitized := d.target.filter (fun t => t.getD 0 0 ∈ st.known_ports),
      established := d.target.filter (fun t => t.getD 0 0 ∈ st.known_ports) },
    ?_, rfl, rfl, rfl⟩
  rw [hst']
  exact hd4

/-- A one-slice switch with a datapath, port 1 up, and slice 0 invalid. -/
def c7_state : SwitchState :=
  { datapath := true, known_ports := {1}, free_groups := {0},
    group_to_tuple := [], tuple_to_group := [], target_index := [([1], 0)],
    slices := [(0, ⟨{[1]}, ∅, ∅⟩)], next_id := 1, invalid_slices := {0},
    invalid_first_tag_rules := ∅ }

/-- The state `revalidate` leaves `c7_state` in. -/
def c7_res : SwitchState :=
  { datapath := true, known_ports := {1}, free_groups := {0},
    group_to_tuple := [], tuple_to_group := [], target_index := [([1], 0)],
    slices := [(0, ⟨{[1]}, {[1]}, {[1]}⟩)], next_id := 1, invalid_slices := ∅,
    invalid_first_tag_rules := ∅ }

theorem C7_revalidate_postcondition_witness :
    c7_res.invalid_slices = ∅ ∧ c7_res.invalid_first_tag_rules = ∅ ∧
    (∃ d', alookup 0 c7_res.slices = some d' ∧
      d'.target = (⟨{[1]}, ∅, ∅⟩ : SliceData).target ∧
      d'.sanitized = (⟨{[1]}, ∅, ∅⟩ : SliceData).target.filter
        (fun t => t.getD 0 0 ∈ c7_state.known_ports) ∧
      d'.established = d'.sanitized) :=
  ⟨(C7_revalidate_postcondition c7_state rfl c7_res [] (by decide)).1,
   (C7_revalidate_postcondition c7_state rfl c7_res [] (by decide)).2.1,
   (C7_revalidate_postcondition c7_state rfl c7_res [] (by decide)).2.2
     0 (by decide) ⟨{[1]}, ∅, ∅⟩ (by decide)⟩
